import Mathlib

/-! Idempotency guard of `duplicate-requests` (`main.go`).

A shallow embedding of the Redis-backed idempotency coordinator `Redis[T]`
(`Start`, `Store`) and of the `POST /shipping/order` handler of `main.go`.

* Go strings and byte slices are lists of bytes (`List Nat`, every element below 256).
* The Redis server is a map from key and hash field to the stored bytes.  The three
  commands the program issues (`HSETNX`, `HGET`, `HSET`) are modelled with their
  documented semantics; every call takes a `Net` outcome that says whether the
  round trip to the server worked.
* A Go `error` is `Option Error`, `none` being `nil`.
* `Start`, `Store`, `Save` and `handler` are translations of `main.go`.  What they
  call in go-redis, `encoding/json`, `unicode/utf8`, `strconv` and gorm is modelled
  from the documented behaviour of these libraries; `time.Time` and the `Save` of
  gorm are parameters.
-/

namespace DuplicateRequests

/-! ## Bytes, errors and the store -/

/-- Bytes of an ASCII literal of the source. -/
def ascii (s : String) : List Nat := s.data.map Char.toNat

/-- Go error values that the program can observe. -/
inductive Error where
  /-- The value `redis.Nil`: the key or the hash field does not exist. -/
  | redisNil
  /-- Any other failure reported by a Redis call. -/
  | redis (code : Nat)
  /-- A failure reported by `json.Marshal`. -/
  | marshal (code : Nat)
  /-- A failure reported by `json.Unmarshal`. -/
  | unmarshal (code : Nat)
  /-- A failure reported by gorm. -/
  | gorm (code : Nat)
  /-- A failure reported by `c.Bind`. -/
  | bind (code : Nat)
  deriving DecidableEq

/-- Contents of the Redis server: key, then hash field, to the stored bytes. -/
abbrev DB := List Nat → List Nat → Option (List Nat)

/-- The server with no key at all. -/
def DB.empty : DB := fun _ _ => none

/-- A record exists under a key when the hash there has at least one field. -/
def DB.hasRecord (db : DB) (key : List Nat) : Prop := ∃ field, db key field ≠ none

/-- Outcome of one round trip to the Redis server. -/
inductive Net where
  /-- The command ran and its reply arrived. -/
  | ok
  /-- The call failed and the command did not run. -/
  | lostRequest (e : Error)
  /-- The command ran on the server and the call failed all the same. -/
  | lostReply (e : Error)
  deriving DecidableEq

/-- Server side of `HSET key field value`: the field is written unconditionally. -/
def DB.hset (db : DB) (key field value : List Nat) : DB :=
  fun k f => if k = key ∧ f = field then some value else db k f

/-- Server side of `HSETNX key field value`: the field is written only when the
hash has no such field; the reply says whether it was written. -/
def DB.hsetnx (db : DB) (key field value : List Nat) : DB × Bool :=
  match db key field with
  | some _ => (db, false)
  | none => (db.hset key field value, true)

/-- The call `client.HSetNX(ctx, key, field, value)`: `tr.Err()` and `tr.Val()`. -/
def HSetNX (db : DB) (key field value : List Nat) (net : Net) : DB × Except Error Bool :=
  match net with
  | .ok => ((db.hsetnx key field value).1, .ok (db.hsetnx key field value).2)
  | .lostRequest e => (db, .error e)
  | .lostReply e => ((db.hsetnx key field value).1, .error e)

/-- The call `client.HGet(ctx, key, field).Bytes()`: an absent field is the error
`redis.Nil`. -/
def HGet (db : DB) (key field : List Nat) (net : Net) : Except Error (List Nat) :=
  match net with
  | .ok =>
    match db key field with
    | some b => .ok b
    | none => .error .redisNil
  | .lostRequest e => .error e
  | .lostReply e => .error e

/-- The call `client.HSet(ctx, key, field, value).Err()`. -/
def HSet (db : DB) (key field value : List Nat) (net : Net) : DB × Option Error :=
  match net with
  | .ok => (db.hset key field value, none)
  | .lostRequest e => (db, some e)
  | .lostReply e => (db.hset key field value, some e)

/-! ## The coordinator `Redis[T]` -/

/-- What `Redis[T]` needs from `T`: its zero value and `encoding/json` on it.
`unmarshal b` is `json.Unmarshal(b, &t)` on a target `t` that holds the zero
value: what `t` holds afterwards, and the error. -/
structure Codec (T : Type) where
  zero : T
  marshal : T → Except Error (List Nat)
  unmarshal : List Nat → T × Option Error

/-- The key of the record of an idempotency key: `"idempotency:"+idempotencyKey`. -/
def recordKey (idempotencyKey : List Nat) : List Nat := ascii "idempotency:" ++ idempotencyKey

/-- The hash field `"status"`. -/
def statusField : List Nat := ascii "status"

/-- The hash field `"value"`. -/
def valueField : List Nat := ascii "value"

/-- The bytes `"started"`. -/
def started : List Nat := ascii "started"

/-- The method `Redis[T].Start`: the store afterwards and the triple it returns.
`n1` is the outcome of the `HSetNX` call and `n2` that of the `HGet` call. -/
def Start {T : Type} (c : Codec T) (db : DB) (idempotencyKey : List Nat) (n1 n2 : Net) :
    DB × (T × Bool × Option Error) :=
  let t := c.zero
  match HSetNX db (recordKey idempotencyKey) statusField started n1 with
  | (db1, .error e) => (db1, (t, false, some e))
  | (db1, .ok true) => (db1, (t, false, none))
  | (db1, .ok false) =>
    match HGet db1 (recordKey idempotencyKey) valueField n2 with
    | .error e => (db1, (t, false, some e))
    | .ok b =>
      match c.unmarshal b with
      | (t1, some e) => (db1, (t1, false, some e))
      | (t1, none) => (db1, (t1, true, none))

/-- The method `Redis[T].Store`: the store afterwards and the error it returns.
`n` is the outcome of the `HSet` call. -/
def Store {T : Type} (c : Codec T) (db : DB) (idempotencyKey : List Nat) (value : T) (n : Net) :
    DB × Option Error :=
  match c.marshal value with
  | .error e => (db, some e)
  | .ok b => HSet db (recordKey idempotencyKey) valueField b n

/-! ## unicode/utf8 -/

/-- The rune `utf8.RuneError`, U+FFFD. -/
def RuneError : Nat := 0xFFFD

/-- Width in bytes that the table `first` of `unicode/utf8` gives to a lead byte;
`0` marks a byte that cannot start a rune (`xx`). -/
def leadSize (p0 : Nat) : Nat :=
  if p0 < 0x80 then 1
  else if p0 < 0xC2 then 0
  else if p0 < 0xE0 then 2
  else if p0 < 0xF0 then 3
  else if p0 < 0xF5 then 4
  else 0

/-- Lowest second byte accepted after a lead byte (`acceptRanges[..].lo`). -/
def acceptLo (p0 : Nat) : Nat :=
  if p0 = 0xE0 then 0xA0 else if p0 = 0xF0 then 0x90 else 0x80

/-- Highest second byte accepted after a lead byte (`acceptRanges[..].hi`). -/
def acceptHi (p0 : Nat) : Nat :=
  if p0 = 0xED then 0x9F else if p0 = 0xF4 then 0x8F else 0xBF

/-- The function `utf8.DecodeRune`: the first rune of `p` and its width in bytes;
`(RuneError, 1)` marks an invalid encoding. -/
def DecodeRune (p : List Nat) : Nat × Nat :=
  match p with
  | [] => (RuneError, 0)
  | p0 :: t0 =>
    if p0 < 0x80 then (p0, 1)
    else if leadSize p0 = 0 then (RuneError, 1)
    else if p.length < leadSize p0 then (RuneError, 1)
    else
      match t0 with
      | [] => (RuneError, 1)
      | b1 :: t1 =>
        if b1 < acceptLo p0 ∨ acceptHi p0 < b1 then (RuneError, 1)
        else if leadSize p0 ≤ 2 then (p0 % 32 * 64 + b1 % 64, 2)
        else
          match t1 with
          | [] => (RuneError, 1)
          | b2 :: t2 =>
            if b2 < 0x80 ∨ 0xBF < b2 then (RuneError, 1)
            else if leadSize p0 ≤ 3 then (p0 % 16 * 4096 + b1 % 64 * 64 + b2 % 64, 3)
            else
              match t2 with
              | [] => (RuneError, 1)
              | b3 :: _ =>
                if b3 < 0x80 ∨ 0xBF < b3 then (RuneError, 1)
                else (p0 % 8 * 262144 + b1 % 64 * 4096 + b2 % 64 * 64 + b3 % 64, 4)

/-- The function `utf8.AppendRune` on an empty buffer: the UTF-8 encoding of a
rune, that of U+FFFD for a surrogate or a rune above U+10FFFF. -/
def AppendRune (r : Nat) : List Nat :=
  if r ≤ 0x7F then [r]
  else if r ≤ 0x7FF then [0xC0 + r / 64, 0x80 + r % 64]
  else if 0x10FFFF < r ∨ (0xD800 ≤ r ∧ r ≤ 0xDFFF) then [0xEF, 0xBF, 0xBD]
  else if r ≤ 0xFFFF then [0xE0 + r / 4096, 0x80 + r / 64 % 64, 0x80 + r % 64]
  else [0xF0 + r / 262144, 0x80 + r / 4096 % 64, 0x80 + r / 64 % 64, 0x80 + r % 64]

/-- Loop of `utf8.Valid`: no position decodes to `(RuneError, 1)`. -/
def validLoop : Nat → List Nat → Bool
  | 0, p => p.isEmpty
  | fuel + 1, p =>
    match p with
    | [] => true
    | _ :: _ =>
      if (DecodeRune p).1 = RuneError ∧ (DecodeRune p).2 = 1 then false
      else validLoop fuel (p.drop (DecodeRune p).2)

/-- The function `utf8.Valid`: the bytes are a sequence of UTF-8 encoded runes. -/
def Valid (p : List Nat) : Bool := validLoop p.length p

/-! ## encoding/json: strings -/

/-- The table `hex` of `encoding/json`: `"0123456789abcdef"`. -/
def hex (n : Nat) : Nat := if n < 10 then 48 + n else 87 + n

/-- The table `htmlSafeSet`: the ASCII bytes that are copied as they are. -/
def htmlSafeSet (b : Nat) : Bool :=
  decide (0x20 ≤ b) && decide (b < 0x80) && b != 34 && b != 38 && b != 60 && b != 62 && b != 92

/-- Escape of one ASCII byte that is not in `htmlSafeSet` (the `switch b` of
`appendString`, as of Go 1.22; earlier releases write the backspace and the form
feed as `\u0008` and `\u000c`, which `unquote` reads back the same). -/
def escapeASCII (b : Nat) : List Nat :=
  if b = 92 ∨ b = 34 then [92, b]
  else if b = 8 then [92, 98]
  else if b = 12 then [92, 102]
  else if b = 10 then [92, 110]
  else if b = 13 then [92, 114]
  else if b = 9 then [92, 116]
  else [92, 117, 48, 48, hex (b / 16), hex (b % 16)]

/-- Loop of `appendString` with `escapeHTML` set, as `json.Marshal` calls it: the
text between the quotes.  Bytes that are not UTF-8 are written as the escape of
U+FFFD. -/
def appendStringLoop : Nat → List Nat → List Nat
  | 0, _ => []
  | fuel + 1, src =>
    match src with
    | [] => []
    | b :: rest =>
      if b < 0x80 then
        if htmlSafeSet b then b :: appendStringLoop fuel rest
        else escapeASCII b ++ appendStringLoop fuel rest
      else
        let c := (DecodeRune (src.take 4)).1
        let size := (DecodeRune (src.take 4)).2
        if c = RuneError ∧ size = 1 then
          ascii "\\ufffd" ++ appendStringLoop fuel (src.drop size)
        else if c = 0x2028 ∨ c = 0x2029 then
          ascii "\\u202" ++ hex (c % 16) :: appendStringLoop fuel (src.drop size)
        else src.take size ++ appendStringLoop fuel (src.drop size)

/-- The function `appendString` of `encoding/json` on an empty buffer, with
`escapeHTML` set: the JSON string literal of a Go string. -/
def appendString (src : List Nat) : List Nat :=
  34 :: (appendStringLoop src.length src ++ [34])

/-- Value of one hexadecimal digit, as `getu4` reads it. -/
def hexVal (c : Nat) : Option Nat :=
  if 48 ≤ c ∧ c ≤ 57 then some (c - 48)
  else if 97 ≤ c ∧ c ≤ 102 then some (c - 97 + 10)
  else if 65 ≤ c ∧ c ≤ 70 then some (c - 65 + 10)
  else none

/-- The function `getu4`: the rune of a leading `\uXXXX`, `none` for `-1`. -/
def getu4 (s : List Nat) : Option Nat :=
  match s with
  | 92 :: 117 :: a :: b :: c :: d :: _ =>
    match hexVal a, hexVal b, hexVal c, hexVal d with
    | some a, some b, some c, some d => some (a * 4096 + b * 256 + c * 16 + d)
    | _, _, _, _ => none
  | _ => none

/-- The function `utf16.DecodeRune` on a first half `r1` and what `getu4` read
next. -/
def decodeSurrogates (r1 : Nat) (r2 : Option Nat) : Nat :=
  match r2 with
  | some r2 =>
    if 0xD800 ≤ r1 ∧ r1 < 0xDC00 ∧ 0xDC00 ≤ r2 ∧ r2 < 0xE000 then
      (r1 - 0xD800) * 1024 + (r2 - 0xDC00) + 0x10000
    else RuneError
  | none => RuneError

/-- Byte of a single-character escape (`\"`, `\\`, `\/`, `\b`, `\f`, `\n`, `\r`, `\t`). -/
def unescape (e : Nat) : Option Nat :=
  if e = 34 ∨ e = 92 ∨ e = 47 then some e
  else if e = 98 then some 8
  else if e = 102 then some 12
  else if e = 110 then some 10
  else if e = 114 then some 13
  else if e = 116 then some 9
  else none

/-- Reading of a JSON string literal after its opening quote, as the scanner and
`unquote` of `encoding/json` do together: the Go string and the input after the
closing quote; `none` for a literal that is not valid JSON. -/
def unquoteLoop : Nat → List Nat → Option (List Nat × List Nat)
  | 0, _ => none
  | fuel + 1, s =>
    match s with
    | [] => none
    | c :: rest =>
      if c = 34 then some ([], rest)
      else if c = 92 then
        match rest with
        | [] => none
        | e :: rest1 =>
          if e = 117 then
            match getu4 s with
            | none => none
            | some rr =>
              if 0xD800 ≤ rr ∧ rr < 0xE000 then
                if decodeSurrogates rr (getu4 (s.drop 6)) ≠ RuneError then
                  (unquoteLoop fuel (s.drop 12)).map
                    (fun r => (AppendRune (decodeSurrogates rr (getu4 (s.drop 6))) ++ r.1, r.2))
                else
                  (unquoteLoop fuel (s.drop 6)).map (fun r => (AppendRune RuneError ++ r.1, r.2))
              else (unquoteLoop fuel (s.drop 6)).map (fun r => (AppendRune rr ++ r.1, r.2))
          else
            match unescape e with
            | none => none
            | some b => (unquoteLoop fuel rest1).map (fun r => (b :: r.1, r.2))
      else if c < 0x20 then none
      else if c < 0x80 then (unquoteLoop fuel rest).map (fun r => (c :: r.1, r.2))
      else
        (unquoteLoop fuel (s.drop (DecodeRune s).2)).map
          (fun r => (AppendRune (DecodeRune s).1 ++ r.1, r.2))

/-- A JSON string literal at the head of the input, decoded into a Go string. -/
def readString (s : List Nat) : Option (List Nat × List Nat) :=
  match s with
  | 34 :: rest => unquoteLoop rest.length rest
  | _ => none

deriving instance DecidableEq for Except

/-! ## encoding/json: numbers -/

/-- The loop of `strconv.formatBits` in base ten: digits are written from the
least significant one, in front of what is already there. -/
def formatBits : Nat → Nat → List Nat → List Nat
  | 0, _, acc => acc
  | fuel + 1, u, acc =>
    if u < 10 then (48 + u) :: acc
    else formatBits fuel (u / 10) ((48 + u % 10) :: acc)

/-- The function `strconv.AppendUint(nil, u, 10)`; a `uint64` has twenty decimal
digits at most. -/
def formatUint (u : Nat) : List Nat := formatBits 20 u []

/-- Run of decimal digits at the head of the input, accumulated in base ten. -/
def readDigits : Nat → List Nat → Nat × List Nat
  | acc, [] => (acc, [])
  | acc, c :: rest =>
    if 48 ≤ c ∧ c ≤ 57 then readDigits (acc * 10 + (c - 48)) rest else (acc, c :: rest)

/-- Whether the input goes on with a fraction or an exponent. -/
def startsFraction (s : List Nat) : Bool :=
  match s with
  | c :: _ => c == 46 || c == 101 || c == 69
  | [] => false

/-- A JSON number literal at the head of the input, decoded into a Go `uint`
(64 bits): the literal must be a plain decimal numeral without sign, fraction or
exponent and below `2^64`, as `strconv.ParseUint` asks. -/
def readUint (s : List Nat) : Option (Nat × List Nat) :=
  match s with
  | [] => none
  | c :: rest =>
    if c = 48 then
      match rest with
      | d :: _ => if (48 ≤ d ∧ d ≤ 57) ∨ startsFraction rest = true then none else some (0, rest)
      | [] => some (0, [])
    else if 49 ≤ c ∧ c ≤ 57 then
      if startsFraction (readDigits (c - 48) rest).2 = true then none
      else if (readDigits (c - 48) rest).1 < 2 ^ 64 then some (readDigits (c - 48) rest)
      else none
    else none

/-! ## time.Time and gorm.Model -/

/-- Bytes of an RFC 3339 rendering: digits and `+ - . : T Z`. -/
def isRFC3339Byte (b : Nat) : Bool :=
  (decide (48 ≤ b) && decide (b ≤ 57)) || b == 43 || b == 45 || b == 46 || b == 58 ||
    b == 84 || b == 90

/-- The type `time.Time`, which is declared outside the repository, with the part
of its JSON methods that `encoding/json` calls: a parameter of the model.
`format t` is the RFC 3339 text that `Time.MarshalJSON` puts between the quotes,
`none` when it reports an error (a year outside 0..9999); `parse` is
`parseStrictRFC3339`, which `Time.UnmarshalJSON` applies to the text between the
quotes; `format_rfc3339` says that the text is made of the bytes of RFC 3339. -/
structure TimeCodec where
  Time : Type
  decEq : DecidableEq Time
  zero : Time
  format : Time → Option (List Nat)
  parse : List Nat → Option Time
  format_rfc3339 : ∀ t s, format t = some s → ∀ b ∈ s, isRFC3339Byte b = true

instance (tc : TimeCodec) : DecidableEq tc.Time := tc.decEq

/-- The type `gorm.DeletedAt` (`sql.NullTime`). -/
structure DeletedAt (Time : Type) where
  Time : Time
  Valid : Bool
  deriving DecidableEq

/-- The type `gorm.Model`. -/
structure Model (Time : Type) where
  ID : Nat
  CreatedAt : Time
  UpdatedAt : Time
  DeletedAt : DeletedAt Time
  deriving DecidableEq

/-- The type `ShippingOrder`; `Model` is the embedded `gorm.Model`. -/
structure ShippingOrder (Time : Type) where
  Model : Model Time
  OrderID : List Nat
  Vendor : List Nat
  Address : List Nat
  deriving DecidableEq

/-- The zero value of `ShippingOrder`. -/
def ShippingOrder.zero (tc : TimeCodec) : ShippingOrder tc.Time :=
  { Model := { ID := 0, CreatedAt := tc.zero, UpdatedAt := tc.zero,
               DeletedAt := { Time := tc.zero, Valid := false } },
    OrderID := [], Vendor := [], Address := [] }

/-! ## encoding/json on `ShippingOrder` -/

/-- The method `Time.MarshalJSON`. -/
def marshalTime (tc : TimeCodec) (t : tc.Time) : Except Error (List Nat) :=
  match tc.format t with
  | some s => .ok (34 :: (s ++ [34]))
  | none => .error (.marshal 1)

/-- The method `DeletedAt.MarshalJSON`: the time when `Valid`, else `null`. -/
def marshalDeletedAt (tc : TimeCodec) (d : DeletedAt tc.Time) : Except Error (List Nat) :=
  if d.Valid then marshalTime tc d.Time else .ok (ascii "null")

/-- The call `json.Marshal(value)` on a `ShippingOrder`: the members of the
embedded `gorm.Model` under their field names, then the tagged fields, in the
order of declaration. -/
def jsonMarshal (tc : TimeCodec) (v : ShippingOrder tc.Time) : Except Error (List Nat) :=
  match marshalTime tc v.Model.CreatedAt, marshalTime tc v.Model.UpdatedAt,
      marshalDeletedAt tc v.Model.DeletedAt with
  | .ok c, .ok u, .ok d =>
    .ok (ascii "\x7b\"ID\":" ++ (formatUint v.Model.ID ++ (ascii ",\"CreatedAt\":" ++ (c ++
      (ascii ",\"UpdatedAt\":" ++ (u ++ (ascii ",\"DeletedAt\":" ++ (d ++
      (ascii ",\"order_id\":" ++ (appendString v.OrderID ++ (ascii ",\"vendor\":" ++
      (appendString v.Vendor ++ (ascii ",\"address\":" ++ (appendString v.Address ++
      ascii "\x7d"))))))))))))))
  | .error e, _, _ => .error e
  | _, .error e, _ => .error e
  | _, _, .error e => .error e

/-- The given bytes at the head of the input: what follows them. -/
def expect : List Nat → List Nat → Option (List Nat)
  | [], s => some s
  | _ :: _, [] => none
  | l :: lit, c :: s => if l = c then expect lit s else none

/-- Extent of a JSON string literal after its opening quote, as the scanner of
`encoding/json` finds it: the raw text up to the closing quote, escapes left as
they are, and the input after it. -/
def scanString : Nat → List Nat → Option (List Nat × List Nat)
  | 0, _ => none
  | fuel + 1, s =>
    match s with
    | [] => none
    | c :: rest =>
      if c = 34 then some ([], rest)
      else if c = 92 then
        match rest with
        | [] => none
        | e :: rest1 =>
          if e = 117 then
            match getu4 s with
            | none => none
            | some _ => (scanString fuel (s.drop 6)).map (fun r => (s.take 6 ++ r.1, r.2))
          else
            match unescape e with
            | none => none
            | some _ => (scanString fuel rest1).map (fun r => (c :: e :: r.1, r.2))
      else if c < 0x20 then none
      else (scanString fuel rest).map (fun r => (c :: r.1, r.2))

/-- The method `Time.UnmarshalJSON` on the JSON value at the head of the input,
for a target that holds `t0`: `null` leaves the target as it is, a string literal
is parsed as RFC 3339 without unescaping, any other value is an error. -/
def readTime (tc : TimeCodec) (t0 : tc.Time) (s : List Nat) : Option (tc.Time × List Nat) :=
  match s with
  | 110 :: 117 :: 108 :: 108 :: rest => some (t0, rest)
  | 34 :: rest =>
    match scanString rest.length rest with
    | some (text, rest1) => (tc.parse text).map (fun t => (t, rest1))
    | none => none
  | _ => none

/-- The method `DeletedAt.UnmarshalJSON` on the JSON value at the head of the
input, for a target that holds `d0`: `null` clears `Valid` and keeps the time, any
other value goes to `Time.UnmarshalJSON` and sets `Valid`. -/
def readDeletedAt (tc : TimeCodec) (d0 : DeletedAt tc.Time) (s : List Nat) :
    Option (DeletedAt tc.Time × List Nat) :=
  match s with
  | 110 :: 117 :: 108 :: 108 :: rest => some ({ Time := d0.Time, Valid := false }, rest)
  | _ => (readTime tc d0.Time s).map (fun r => ({ Time := r.1, Valid := true }, r.2))

/-- A member of the document: the bytes `lit` (separator, quoted name and colon),
then a value that `read` decodes. -/
def member {α : Type} (lit : List Nat) (read : List Nat → Option (α × List Nat))
    (s : List Nat) : Option (α × List Nat) :=
  match expect lit s with
  | some s1 => read s1
  | none => none

/-- The members that `json.Unmarshal` stores in the embedded `gorm.Model`. -/
def readModel (tc : TimeCodec) (s : List Nat) : Option (Model tc.Time × List Nat) :=
  match member (ascii "\x7b\"ID\":") readUint s with
  | none => none
  | some (id, s1) =>
    match member (ascii ",\"CreatedAt\":") (readTime tc tc.zero) s1 with
    | none => none
    | some (c, s2) =>
      match member (ascii ",\"UpdatedAt\":") (readTime tc tc.zero) s2 with
      | none => none
      | some (u, s3) =>
        match member (ascii ",\"DeletedAt\":")
            (readDeletedAt tc { Time := tc.zero, Valid := false }) s3 with
        | none => none
        | some (d, s4) =>
          some ({ ID := id, CreatedAt := c, UpdatedAt := u, DeletedAt := d }, s4)

/-- Decoding of a JSON document into a zero `ShippingOrder`, for the documents
that `jsonMarshal` writes: one object, its members in the order of declaration,
no white space.  On these `json.Unmarshal` stores every member in its field as done
here.  Documents of another layout (members reordered, repeated or left out, white
space, `null` for a string or for the ID) are outside this model and are reported
as `none`. -/
def jsonDecode (tc : TimeCodec) (s : List Nat) : Option (ShippingOrder tc.Time) :=
  match readModel tc s with
  | none => none
  | some (m, s1) =>
    match member (ascii ",\"order_id\":") readString s1 with
    | none => none
    | some (o, s2) =>
      match member (ascii ",\"vendor\":") readString s2 with
      | none => none
      | some (v, s3) =>
        match member (ascii ",\"address\":") readString s3 with
        | none => none
        | some (a, s4) =>
          if s4 = ascii "\x7d" then some { Model := m, OrderID := o, Vendor := v, Address := a }
          else none

/-- The call `json.Unmarshal(b, &t)` on a zero `ShippingOrder`. -/
def jsonUnmarshal (tc : TimeCodec) (b : List Nat) : ShippingOrder tc.Time × Option Error :=
  match jsonDecode tc b with
  | some v => (v, none)
  | none => (ShippingOrder.zero tc, some (.unmarshal 1))

/-- What the coordinator needs from `ShippingOrder`, as in `Redis[ShippingOrder]`. -/
def shippingCodec (tc : TimeCodec) : Codec (ShippingOrder tc.Time) :=
  { zero := ShippingOrder.zero tc, marshal := jsonMarshal tc, unmarshal := jsonUnmarshal tc }

/-- A time that `Time.MarshalJSON` renders and `Time.UnmarshalJSON` reads back as
the same value. -/
def TimeSurvives (tc : TimeCodec) (t : tc.Time) : Bool :=
  match tc.format t with
  | some s => decide (tc.parse s = some t)
  | none => false

/-- The orders that JSON represents: the ID is a `uint` (64 bits), the three
strings are valid UTF-8, the two time stamps survive their own JSON methods, and
`DeletedAt` either is valid with such a time or is the zero value. -/
def JSONRepresentable (tc : TimeCodec) (v : ShippingOrder tc.Time) : Bool :=
  decide (v.Model.ID < 2 ^ 64) && TimeSurvives tc v.Model.CreatedAt &&
  TimeSurvives tc v.Model.UpdatedAt &&
  (if v.Model.DeletedAt.Valid then TimeSurvives tc v.Model.DeletedAt.Time
   else decide (v.Model.DeletedAt.Time = tc.zero)) &&
  Valid v.OrderID && Valid v.Vendor && Valid v.Address

/-- The codec of a clock that only ever shows the zero time of Go,
`0001-01-01T00:00:00Z`, which is what the orders of the handler carry before gorm
stamps them: a small instance of `TimeCodec` for the concrete examples. -/
def zeroClock : TimeCodec :=
  { Time := Unit
    decEq := inferInstance
    zero := ()
    format := fun _ => some (ascii "0001-01-01T00:00:00Z")
    parse := fun s => if s = ascii "0001-01-01T00:00:00Z" then some () else none
    format_rfc3339 := by
      intro _ s h b hb
      cases h
      revert b
      decide }

/-! ## The handler of `POST /shipping/order` -/

/-- The type `PlaceShippingOrderRequest`. -/
structure PlaceShippingOrderRequest where
  OrderID : List Nat
  Vendor : List Nat
  Address : List Nat
  deriving DecidableEq

/-- The literal `ShippingOrder{OrderID: ..., Vendor: ..., Address: ...}` that the
handler hands to `Save`: the three fields of the request, the rest zero. -/
def newOrder (tc : TimeCodec) (request : PlaceShippingOrderRequest) : ShippingOrder tc.Time :=
  { ShippingOrder.zero tc with
    OrderID := request.OrderID, Vendor := request.Vendor, Address := request.Address }

/-- The second argument of a call `c.JSON(code, body)` of the handler. -/
inductive Body (Time : Type) where
  /-- A `ShippingOrder`. -/
  | order (stored : ShippingOrder Time)
  /-- The map with the keys `"ok"` and `"shipping_id"`. -/
  | created (ok : Bool) (shipping_id : Nat)
  deriving DecidableEq

/-- What the handler returns: the call `c.JSON(code, body)`, or an error. -/
inductive Response (Time : Type) where
  | json (code : Nat) (body : Body Time)
  | error (e : Error)
  deriving DecidableEq

/-- The call `s.db.WithContext(ctx).Save(&order)` of gorm, a parameter of the
model: what it leaves in `order`, and its `Error`. -/
abbrev Gorm (Time : Type) := ShippingOrder Time → ShippingOrder Time × Option Error

/-- The method `Shipping.Save`. -/
def Save {Time : Type} (gorm : Gorm Time) (order : ShippingOrder Time) :
    ShippingOrder Time × Option Error :=
  gorm order

/-- The requests that `c.Bind` can fill.  The fields carry `json` tags only, so
they are filled by `encoding/json`, which decodes every string into valid UTF-8
(a byte that is not UTF-8 arrives as U+FFFD). -/
def Bound (request : PlaceShippingOrderRequest) : Bool :=
  Valid request.OrderID && Valid request.Vendor && Valid request.Address

/-- What the `Save` of gorm does to the order of this program, which declares no
hooks: it assigns the ID, a `uint` (64 bits), and the two time stamps, times
that survive their own JSON methods, and leaves every other field as it was.
`created` is the order after the call on `order`. -/
def SaveAssigned (tc : TimeCodec) (order created : ShippingOrder tc.Time) : Bool :=
  decide (created.OrderID = order.OrderID) && decide (created.Vendor = order.Vendor) &&
  decide (created.Address = order.Address) &&
  decide (created.Model.DeletedAt = order.Model.DeletedAt) &&
  decide (created.Model.ID < 2 ^ 64) && TimeSurvives tc created.Model.CreatedAt &&
  TimeSurvives tc created.Model.UpdatedAt

/-- The handler of `POST /shipping/order`.  `bound` is the request that `c.Bind`
filled, or its error; `n1`, `n2` are the outcomes of the store calls of `Start`
and `n3` that of the store call of `Store`.  The pause of two seconds and the
deadline of `Save` are not part of the model. -/
def handler (tc : TimeCodec) (gorm : Gorm tc.Time) (db : DB)
    (bound : Except Error PlaceShippingOrderRequest) (n1 n2 n3 : Net) :
    DB × Response tc.Time :=
  match bound with
  | .error e => (db, .error e)
  | .ok request =>
    match Start (shippingCodec tc) db request.OrderID n1 n2 with
    | (db1, (_, _, some e)) => (db1, .error e)
    | (db1, (stored, true, none)) => (db1, .json 200 (.order stored))
    | (db1, (_, false, none)) =>
      match Save gorm (newOrder tc request) with
      | (createdOrder, err) =>
        match Store (shippingCodec tc) db1 createdOrder.OrderID createdOrder n3 with
        | (db2, some e) => (db2, .error e)
        | (db2, none) =>
          match err with
          | some e => (db2, .error e)
          | none => (db2, .json 201 (.created true createdOrder.Model.ID))

/-! ## Sequences of calls -/

/-- A call of a method of `Redis[T]`, with the outcomes of its store calls. -/
inductive Call (T : Type) where
  | start (idempotencyKey : List Nat) (n1 n2 : Net)
  | store (idempotencyKey : List Nat) (value : T) (n : Net)
  deriving DecidableEq

/-- What a call returned. -/
inductive Outcome (T : Type) where
  | start (r : T × Bool × Option Error)
  | store (err : Option Error)
  deriving DecidableEq

/-- One call on the store. -/
def perform {T : Type} (c : Codec T) (db : DB) : Call T → DB × Outcome T
  | .start k n1 n2 => ((Start c db k n1 n2).1, .start (Start c db k n1 n2).2)
  | .store k v n => ((Store c db k v n).1, .store (Store c db k v n).2)

/-- A sequence of calls, one after the other: the store at the end and every call
with what it returned. -/
def run {T : Type} (c : Codec T) : DB → List (Call T) → DB × List (Call T × Outcome T)
  | db, [] => (db, [])
  | db, call :: calls =>
    ((run c (perform c db call).1 calls).1,
      (call, (perform c db call).2) :: (run c (perform c db call).1 calls).2)

/-- A `Start` on the key `k` that returned `(_, false, nil)`. -/
def isFreshStart {T : Type} (k : List Nat) : Call T × Outcome T → Bool
  | (.start k1 _ _, .start (_, false, none)) => decide (k1 = k)
  | _ => false

/-! ## Concurrent callers of `Start` -/

/-- Where a caller of `Start` stands between its store calls. -/
inductive Phase (T : Type) where
  /-- Before the `HSetNX` call. -/
  | ready
  /-- After an `HSetNX` that reported `false`, before the `HGet` call. -/
  | reading
  /-- After the `return`. -/
  | returned (r : T × Bool × Option Error)
  deriving DecidableEq

/-- The next store call of a caller of `Start(idempotencyKey)` and what follows it
up to the next store call or the `return`. -/
def stepStart {T : Type} (c : Codec T) (idempotencyKey : List Nat) (db : DB) (p : Phase T)
    (net : Net) : DB × Phase T :=
  match p with
  | .ready =>
    match HSetNX db (recordKey idempotencyKey) statusField started net with
    | (db1, .error e) => (db1, .returned (c.zero, false, some e))
    | (db1, .ok true) => (db1, .returned (c.zero, false, none))
    | (db1, .ok false) => (db1, .reading)
  | .reading =>
    match HGet db (recordKey idempotencyKey) valueField net with
    | .error e => (db, .returned (c.zero, false, some e))
    | .ok b =>
      match c.unmarshal b with
      | (t1, some e) => (db, .returned (t1, false, some e))
      | (t1, none) => (db, .returned (t1, true, none))
  | .returned r => (db, .returned r)

/-- The caller at position `i` makes its next store call, which succeeds; nothing
happens when there is no such caller or it has returned. -/
def advance {T : Type} (c : Codec T) (k : List Nat) : Nat → DB → List (Phase T) →
    DB × List (Phase T)
  | _, db, [] => (db, [])
  | 0, db, p :: ps => ((stepStart c k db p .ok).1, (stepStart c k db p .ok).2 :: ps)
  | i + 1, db, p :: ps => ((advance c k i db ps).1, p :: (advance c k i db ps).2)

/-- The callers make their store calls in the order the schedule gives. -/
def interleave {T : Type} (c : Codec T) (k : List Nat) : List Nat → DB → List (Phase T) →
    DB × List (Phase T)
  | [], db, ps => (db, ps)
  | i :: sched, db, ps =>
    interleave c k sched (advance c k i db ps).1 (advance c k i db ps).2

/-- How far a caller of `Start` is: 0 before `HSetNX`, 1 before `HGet`, 2 after the
`return`. -/
def Phase.rank {T : Type} : Phase T → Nat
  | .ready => 0
  | .reading => 1
  | .returned _ => 2

/-- What holds of concurrent callers of `Start(k)` on a key that had no record,
while nothing is stored: the `"value"` field is absent; every caller is before
`HSetNX`, before `HGet`, or has returned `(zero, false, nil)` or
`(zero, false, redis.Nil)`; as long as `"status"` is absent every caller is before
`HSetNX`; once it is present exactly one caller has returned `(zero, false, nil)`. -/
def RaceInv {T : Type} (c : Codec T) (k : List Nat) (db : DB) (ps : List (Phase T)) : Prop :=
  db (recordKey k) valueField = none ∧
  (∀ (j : Nat) (p : Phase T), ps[j]? = some p → p = Phase.ready ∨ p = Phase.reading ∨
    p = Phase.returned (c.zero, false, none) ∨
    p = Phase.returned (c.zero, false, some Error.redisNil)) ∧
  (db (recordKey k) statusField = none →
    ∀ (j : Nat) (p : Phase T), ps[j]? = some p → p = Phase.ready) ∧
  (db (recordKey k) statusField ≠ none →
    ∃ i : Nat, ps[i]? = some (Phase.returned (c.zero, false, none)) ∧
      ∀ j : Nat, j ≠ i → ps[j]? ≠ some (Phase.returned (c.zero, false, none)))

/-! ## Sample values -/

/-- The idempotency key `"K1"`. -/
def keyK1 : List Nat := ascii "K1"

/-- The order of Scenario A: id 1, order_id `K1`, vendor `V`, address `A`. -/
def orderA : ShippingOrder zeroClock.Time :=
  { Model := { ID := 1, CreatedAt := (), UpdatedAt := (), DeletedAt := ⟨(), false⟩ },
    OrderID := ascii "K1", Vendor := ascii "V", Address := ascii "A" }

/-- An order whose `OrderID` is the single byte `0xFF`, which is not UTF-8. -/
def orderFF : ShippingOrder zeroClock.Time :=
  { Model := { ID := 1, CreatedAt := (), UpdatedAt := (), DeletedAt := ⟨(), false⟩ },
    OrderID := [0xFF], Vendor := ascii "V", Address := ascii "A" }

/-- The same order with U+FFFD (`EF BF BD`) as its `OrderID`. -/
def orderFFFD : ShippingOrder zeroClock.Time :=
  { Model := { ID := 1, CreatedAt := (), UpdatedAt := (), DeletedAt := ⟨(), false⟩ },
    OrderID := [0xEF, 0xBF, 0xBD], Vendor := ascii "V", Address := ascii "A" }

/-- The document that `json.Marshal` writes for `orderFF`. -/
def documentFFFD : List Nat :=
  ascii ("\x7b\"ID\":1,\"CreatedAt\":\"0001-01-01T00:00:00Z\"," ++
    "\"UpdatedAt\":\"0001-01-01T00:00:00Z\",\"DeletedAt\":null," ++
    "\"order_id\":\"\\ufffd\",\"vendor\":\"V\",\"address\":\"A\"\x7d")

/-- The request with order_id `K1`, vendor `V`, address `A`. -/
def requestA : PlaceShippingOrderRequest :=
  { OrderID := ascii "K1", Vendor := ascii "V", Address := ascii "A" }

/-- A gorm whose `Save` assigns the ID 1 and succeeds. -/
def gormOk : Gorm zeroClock.Time :=
  fun order => ({ order with Model := { order.Model with ID := 1 } }, none)

/-- A gorm whose `Save` fails and leaves the order as it was. -/
def gormDown : Gorm zeroClock.Time :=
  fun order => (order, some (.gorm 1))

/-! # Theorems -/

set_option maxRecDepth 100000

/-! ### UTF-8 facts -/

/-- Shape of the input when `DecodeRune` does not report an invalid encoding. -/
theorem DecodeRune_cases (p0 : Nat) (t0 : List Nat)
    (h : ¬ ((DecodeRune (p0 :: t0)).1 = RuneError ∧ (DecodeRune (p0 :: t0)).2 = 1)) :
    (p0 < 0x80 ∧ DecodeRune (p0 :: t0) = (p0, 1)) ∨
    (∃ b1 t1, t0 = b1 :: t1 ∧ 0xC2 ≤ p0 ∧ p0 < 0xE0 ∧ 0x80 ≤ b1 ∧ b1 ≤ 0xBF ∧
      DecodeRune (p0 :: t0) = (p0 % 32 * 64 + b1 % 64, 2)) ∨
    (∃ b1 b2 t2, t0 = b1 :: b2 :: t2 ∧ 0xE0 ≤ p0 ∧ p0 < 0xF0 ∧
      acceptLo p0 ≤ b1 ∧ b1 ≤ acceptHi p0 ∧ 0x80 ≤ b2 ∧ b2 ≤ 0xBF ∧
      DecodeRune (p0 :: t0) = (p0 % 16 * 4096 + b1 % 64 * 64 + b2 % 64, 3)) ∨
    (∃ b1 b2 b3 t3, t0 = b1 :: b2 :: b3 :: t3 ∧ 0xF0 ≤ p0 ∧ p0 < 0xF5 ∧
      acceptLo p0 ≤ b1 ∧ b1 ≤ acceptHi p0 ∧ 0x80 ≤ b2 ∧ b2 ≤ 0xBF ∧ 0x80 ≤ b3 ∧ b3 ≤ 0xBF ∧
      DecodeRune (p0 :: t0) =
        (p0 % 8 * 262144 + b1 % 64 * 4096 + b2 % 64 * 64 + b3 % 64, 4)) := by
  by_cases h0 : p0 < 0x80
  · left; exact ⟨h0, by simp [DecodeRune, h0]⟩
  right
  by_cases hz : leadSize p0 = 0
  · exact absurd (by simp [DecodeRune, h0, hz]) h
  by_cases hl : (p0 :: t0).length < leadSize p0
  · exact absurd (by simp only [DecodeRune, h0, hz, hl, if_true, if_false, and_self]) h
  cases t0 with
  | nil => exact absurd (by simp [DecodeRune, h0, hz]) h
  | cons b1 t1 =>
    by_cases hb1 : b1 < acceptLo p0 ∨ acceptHi p0 < b1
    · exact absurd (by simp only [DecodeRune, h0, hz, hl, hb1, if_true, if_false, and_self]) h
    have hb1lo : acceptLo p0 ≤ b1 := by omega
    have hb1hi : b1 ≤ acceptHi p0 := by omega
    by_cases h2 : leadSize p0 ≤ 2
    · left
      have hp : 0xC2 ≤ p0 ∧ p0 < 0xE0 := by
        unfold leadSize at h2 hz; split_ifs at h2 hz <;> omega
      have hlo : acceptLo p0 = 0x80 := by unfold acceptLo; split_ifs <;> omega
      have hhi : acceptHi p0 = 0xBF := by unfold acceptHi; split_ifs <;> omega
      refine ⟨b1, t1, rfl, hp.1, hp.2, by omega, by omega, ?_⟩
      simp only [DecodeRune, h0, hz, hl, hb1, h2, if_true, if_false]
    right
    cases t1 with
    | nil =>
      exfalso; apply hl
      have : leadSize p0 ≤ 4 := by unfold leadSize; split_ifs <;> omega
      simp only [List.length_cons, List.length_nil]; omega
    | cons b2 t2 =>
      by_cases hb2 : b2 < 0x80 ∨ 0xBF < b2
      · exact absurd (by simp only [DecodeRune, h0, hz, hl, hb1, h2, hb2, if_true, if_false, and_self]) h
      by_cases h3 : leadSize p0 ≤ 3
      · left
        have hp : 0xE0 ≤ p0 ∧ p0 < 0xF0 := by
          unfold leadSize at h2 h3 hz; split_ifs at h2 h3 hz <;> omega
        refine ⟨b1, b2, t2, rfl, hp.1, hp.2, hb1lo, hb1hi, by omega, by omega, ?_⟩
        simp only [DecodeRune, h0, hz, hl, hb1, h2, hb2, h3, if_true, if_false]
      right
      cases t2 with
      | nil =>
        exfalso; apply hl
        have : leadSize p0 = 4 := by unfold leadSize at h3 ⊢; split_ifs at h3 ⊢ <;> omega
        simp only [List.length_cons, List.length_nil]; omega
      | cons b3 t3 =>
        by_cases hb3 : b3 < 0x80 ∨ 0xBF < b3
        · exact absurd (by simp only [DecodeRune, h0, hz, hl, hb1, h2, hb2, h3, hb3, if_true, if_false, and_self]) h
        have hp : 0xF0 ≤ p0 ∧ p0 < 0xF5 := by
          unfold leadSize at h2 h3 hz; split_ifs at h2 h3 hz <;> omega
        refine ⟨b1, b2, b3, t3, rfl, hp.1, hp.2, hb1lo, hb1hi, by omega, by omega, by omega, by omega, ?_⟩
        simp only [DecodeRune, h0, hz, hl, hb1, h2, hb2, h3, hb3, if_true, if_false]

/-- A validly encoded rune: what `DecodeRune` reads, `AppendRune` writes back, and
the reading depends on those bytes only. -/
theorem DecodeRune_valid (p0 : Nat) (t0 : List Nat)
    (h : ¬ ((DecodeRune (p0 :: t0)).1 = RuneError ∧ (DecodeRune (p0 :: t0)).2 = 1)) :
    1 ≤ (DecodeRune (p0 :: t0)).2 ∧ (DecodeRune (p0 :: t0)).2 ≤ 4 ∧
    (DecodeRune (p0 :: t0)).2 ≤ (p0 :: t0).length ∧
    AppendRune (DecodeRune (p0 :: t0)).1 = (p0 :: t0).take (DecodeRune (p0 :: t0)).2 ∧
    ∀ x, DecodeRune ((p0 :: t0).take (DecodeRune (p0 :: t0)).2 ++ x) = DecodeRune (p0 :: t0) := by
  rcases DecodeRune_cases p0 t0 h with ⟨h0, e⟩ | ⟨b1, t1, rfl, hp, hp2, h1, h1b, e⟩ |
    ⟨b1, b2, t2, rfl, hp, hp2, h1, h1b, h2, h2b, e⟩ |
    ⟨b1, b2, b3, t3, rfl, hp, hp2, h1, h1b, h2, h2b, h3, h3b, e⟩
  · rw [e]
    refine ⟨by simp, by simp, by simp, ?_, ?_⟩
    · have : p0 ≤ 0x7F := by omega
      simp [AppendRune, this]
    · intro x; simp [DecodeRune, h0]
  · rw [e]
    refine ⟨by simp, by simp, by simp, ?_, ?_⟩
    · have a1 : ¬ (p0 % 32 * 64 + b1 % 64 ≤ 0x7F) := by omega
      have a2 : p0 % 32 * 64 + b1 % 64 ≤ 0x7FF := by omega
      have a3 : 0xC0 + (p0 % 32 * 64 + b1 % 64) / 64 = p0 := by omega
      have a4 : 0x80 + (p0 % 32 * 64 + b1 % 64) % 64 = b1 := by omega
      simp only [AppendRune, a1, a2, a3, a4, if_true, if_false, List.take_succ_cons,
        List.take_zero]
    · intro x
      have := e
      simp only [DecodeRune, List.length_cons] at this ⊢
      simp only [List.take_succ_cons, List.take_zero, List.cons_append, List.nil_append,
        List.length_cons]
      have hl : leadSize p0 = 2 := by unfold leadSize; split_ifs <;> omega
      have hlo : acceptLo p0 = 0x80 := by unfold acceptLo; split_ifs <;> omega
      have hhi : acceptHi p0 = 0xBF := by unfold acceptHi; split_ifs <;> omega
      have c1 : ¬ p0 < 0x80 := by omega
      have c2 : ¬ (b1 < 0x80 ∨ 0xBF < b1) := by omega
      simp [c1, hl, hlo, hhi, c2]
  · rw [e]
    have hl : leadSize p0 = 3 := by unfold leadSize; split_ifs <;> omega
    have c1 : ¬ p0 < 0x80 := by omega
    have c2 : ¬ (b1 < acceptLo p0 ∨ acceptHi p0 < b1) := by omega
    have c3 : ¬ (b2 < 0x80 ∨ 0xBF < b2) := by omega
    refine ⟨by simp, by simp, by simp, ?_, ?_⟩
    · have hlo : 0x80 ≤ acceptLo p0 ∧ (p0 = 0xE0 → acceptLo p0 = 0xA0) := by
        unfold acceptLo; split_ifs <;> omega
      have hhi : acceptHi p0 ≤ 0xBF ∧ (p0 = 0xED → acceptHi p0 = 0x9F) := by
        unfold acceptHi; split_ifs <;> omega
      have a1 : ¬ (p0 % 16 * 4096 + b1 % 64 * 64 + b2 % 64 ≤ 0x7F) := by omega
      have a2 : ¬ (p0 % 16 * 4096 + b1 % 64 * 64 + b2 % 64 ≤ 0x7FF) := by omega
      have a3 : ¬ (0x10FFFF < p0 % 16 * 4096 + b1 % 64 * 64 + b2 % 64 ∨
          (0xD800 ≤ p0 % 16 * 4096 + b1 % 64 * 64 + b2 % 64 ∧
            p0 % 16 * 4096 + b1 % 64 * 64 + b2 % 64 ≤ 0xDFFF)) := by omega
      have a4 : p0 % 16 * 4096 + b1 % 64 * 64 + b2 % 64 ≤ 0xFFFF := by omega
      have a5 : 0xE0 + (p0 % 16 * 4096 + b1 % 64 * 64 + b2 % 64) / 4096 = p0 := by omega
      have a6 : 0x80 + (p0 % 16 * 4096 + b1 % 64 * 64 + b2 % 64) / 64 % 64 = b1 := by omega
      have a7 : 0x80 + (p0 % 16 * 4096 + b1 % 64 * 64 + b2 % 64) % 64 = b2 := by omega
      simp only [AppendRune, a1, a2, a3, a4, a5, a6, a7, if_true, if_false,
        List.take_succ_cons, List.take_zero]
    · intro x
      simp only [DecodeRune, List.take_succ_cons, List.take_zero, List.cons_append,
        List.nil_append, List.length_cons]
      simp [c1, hl, c2, c3]
  · rw [e]
    have hl : leadSize p0 = 4 := by unfold leadSize; split_ifs <;> omega
    have c1 : ¬ p0 < 0x80 := by omega
    have c2 : ¬ (b1 < acceptLo p0 ∨ acceptHi p0 < b1) := by omega
    have c3 : ¬ (b2 < 0x80 ∨ 0xBF < b2) := by omega
    have c4 : ¬ (b3 < 0x80 ∨ 0xBF < b3) := by omega
    refine ⟨by simp, by simp, by simp, ?_, ?_⟩
    · have hlo : 0x80 ≤ acceptLo p0 ∧ (p0 = 0xF0 → acceptLo p0 = 0x90) := by
        unfold acceptLo; split_ifs <;> omega
      have hhi : acceptHi p0 ≤ 0xBF ∧ (p0 = 0xF4 → acceptHi p0 = 0x8F) := by
        unfold acceptHi; split_ifs <;> omega
      generalize hr : p0 % 8 * 262144 + b1 % 64 * 4096 + b2 % 64 * 64 + b3 % 64 = r
      have a1 : ¬ (r ≤ 0x7F) := by omega
      have a2 : ¬ (r ≤ 0x7FF) := by omega
      have a3 : ¬ (0x10FFFF < r ∨ (0xD800 ≤ r ∧ r ≤ 0xDFFF)) := by omega
      have a4 : ¬ (r ≤ 0xFFFF) := by omega
      have a5 : 0xF0 + r / 262144 = p0 := by omega
      have a6 : 0x80 + r / 4096 % 64 = b1 := by omega
      have a7 : 0x80 + r / 64 % 64 = b2 := by omega
      have a8 : 0x80 + r % 64 = b3 := by omega
      simp only [AppendRune, a1, a2, a3, a4, a5, a6, a7, a8, if_true, if_false,
        List.take_succ_cons, List.take_zero]
    · intro x
      simp only [DecodeRune, List.take_succ_cons, List.take_zero, List.cons_append,
        List.nil_append, List.length_cons]
      simp [c1, hl, c2, c3, c4]

/-- The encoder looks at four bytes at most, which is all `DecodeRune` reads. -/
theorem DecodeRune_take_four (p : List Nat) : DecodeRune (p.take 4) = DecodeRune p := by
  match p with
  | [] => rfl
  | [_] => rfl
  | [_, _] => rfl
  | [_, _, _] => rfl
  | p0 :: b1 :: b2 :: b3 :: t =>
    have : leadSize p0 ≤ 4 := by unfold leadSize; split_ifs <;> omega
    have h1 : ¬ (t.length + 1 + 1 + 1 + 1 < leadSize p0) := by omega
    have h2 : ¬ (4 < leadSize p0) := by omega
    simp [DecodeRune, h1, h2]

/-! ### Valid UTF-8 strings survive `appendString` then `unquote` -/

theorem hexVal_hex (n : Nat) (h : n < 16) : hexVal (hex n) = some n := by
  interval_cases n <;> rfl

theorem getu4_hex (a b c d : Nat) (x : List Nat) (ha : a < 16) (hb : b < 16) (hc : c < 16)
    (hd : d < 16) :
    getu4 (92 :: 117 :: hex a :: hex b :: hex c :: hex d :: x) =
      some (a * 4096 + b * 256 + c * 16 + d) := by
  simp [getu4, hexVal_hex, ha, hb, hc, hd]

/-- One ASCII byte that is copied. -/
theorem unquoteLoop_safe (b k : Nat) (x : List Nat) (hs : htmlSafeSet b = true) :
    unquoteLoop (k + 1) (b :: x) = (unquoteLoop k x).map (fun r => (b :: r.1, r.2)) := by
  simp only [htmlSafeSet, Bool.and_eq_true, decide_eq_true_eq, bne_iff_ne, ne_eq] at hs
  obtain ⟨⟨⟨⟨⟨⟨h1, h2⟩, h3⟩, _⟩, _⟩, _⟩, h7⟩ := hs
  have c1 : ¬ b < 0x20 := by omega
  simp only [unquoteLoop, h3, h7, c1, h2, if_true, if_false]

/-- One ASCII byte that is escaped. -/
theorem unquoteLoop_escapeASCII (b k : Nat) (x : List Nat) (hb : b < 0x80) :
    unquoteLoop (k + 1) (escapeASCII b ++ x) =
      (unquoteLoop k x).map (fun r => (b :: r.1, r.2)) := by
  unfold escapeASCII
  split_ifs with h1 h2 h3 h4 h5 h6
  · rcases h1 with rfl | rfl <;> simp [unquoteLoop, unescape]
  · subst h2; simp [unquoteLoop, unescape]
  · subst h3; simp [unquoteLoop, unescape]
  · subst h4; simp [unquoteLoop, unescape]
  · subst h5; simp [unquoteLoop, unescape]
  · subst h6; simp [unquoteLoop, unescape]
  · have e := getu4_hex 0 0 (b / 16) (b % 16) x (by omega) (by omega) (by omega) (by omega)
    have e2 : 0 * 4096 + 0 * 256 + b / 16 * 16 + b % 16 = b := by omega
    rw [e2] at e
    have h48 : hex 0 = 48 := rfl
    rw [h48] at e
    have c1 : ¬ (0xD800 ≤ b ∧ b < 0xE000) := by omega
    have c2 : b ≤ 0x7F := by omega
    simp only [List.cons_append, List.nil_append, unquoteLoop, e, c1, AppendRune, c2,
      if_true, if_false, List.drop_succ_cons, List.drop_zero, List.singleton_append]
    simp

/-- One validly encoded rune outside ASCII that is copied. -/
theorem unquoteLoop_rune (p0 k : Nat) (t0 x : List Nat) (h0 : ¬ p0 < 0x80)
    (h : ¬ ((DecodeRune (p0 :: t0)).1 = RuneError ∧ (DecodeRune (p0 :: t0)).2 = 1)) :
    unquoteLoop (k + 1) ((p0 :: t0).take (DecodeRune (p0 :: t0)).2 ++ x) =
      (unquoteLoop k x).map
        (fun r => ((p0 :: t0).take (DecodeRune (p0 :: t0)).2 ++ r.1, r.2)) := by
  obtain ⟨h1, _, h3, h4, h5⟩ := DecodeRune_valid p0 t0 h
  have hd := h5 x
  obtain ⟨m, hm⟩ : ∃ m, (DecodeRune (p0 :: t0)).2 = m + 1 := ⟨_, (Nat.sub_add_cancel h1).symm⟩
  have hlen : ((p0 :: t0).take (DecodeRune (p0 :: t0)).2).length = (DecodeRune (p0 :: t0)).2 := by
    rw [List.length_take]; omega
  have hdrop : ((p0 :: t0).take (DecodeRune (p0 :: t0)).2 ++ x).drop (DecodeRune (p0 :: t0)).2 = x := by
    rw [List.drop_append_eq_append_drop, hlen]; simp
  generalize hw : (p0 :: t0).take (DecodeRune (p0 :: t0)).2 = w at *
  have hw0 : ∃ w1, w = p0 :: w1 := by
    rw [← hw, hm]; exact ⟨_, List.take_succ_cons⟩
  obtain ⟨w1, rfl⟩ := hw0
  have c1 : p0 ≠ 34 := by omega
  have c2 : p0 ≠ 92 := by omega
  have c3 : ¬ p0 < 0x20 := by omega
  rw [List.cons_append] at hd hdrop ⊢
  simp only [unquoteLoop, c1, c2, c3, h0, if_false]
  rw [hd, hdrop, h4]

/-- The escape of U+2028 and U+2029. -/
theorem unquoteLoop_lineSep (c k : Nat) (x : List Nat) (hc : c = 0x2028 ∨ c = 0x2029) :
    unquoteLoop (k + 1) (ascii "\\u202" ++ hex (c % 16) :: x) =
      (unquoteLoop k x).map (fun r => (AppendRune c ++ r.1, r.2)) := by
  rcases hc with rfl | rfl
  · have e : getu4 (92 :: 117 :: 50 :: 48 :: 50 :: 56 :: x) = some 0x2028 :=
      getu4_hex 2 0 2 8 x (by omega) (by omega) (by omega) (by omega)
    simp [unquoteLoop, ascii, hex, e]
  · have e : getu4 (92 :: 117 :: 50 :: 48 :: 50 :: 57 :: x) = some 0x2029 :=
      getu4_hex 2 0 2 9 x (by omega) (by omega) (by omega) (by omega)
    simp [unquoteLoop, ascii, hex, e]

theorem escapeASCII_length_pos (b : Nat) : 1 ≤ (escapeASCII b).length := by
  unfold escapeASCII; split_ifs <;> simp

/-- Reading back the text that `appendString` writes for a valid UTF-8 string. -/
theorem unquoteLoop_appendStringLoop (rest : List Nat) :
    ∀ (n : Nat) (s : List Nat) (f g fuel : Nat), s.length ≤ n → s.length ≤ f → s.length ≤ g →
      (appendStringLoop f s).length < fuel → validLoop g s = true →
      unquoteLoop fuel (appendStringLoop f s ++ 34 :: rest) = some (s, rest) := by
  intro n
  induction n with
  | zero =>
    intro s f g fuel hn _ _ hfu _
    have hs : s = [] := List.length_eq_zero.mp (by omega)
    subst hs
    obtain ⟨k, rfl⟩ : ∃ k, fuel = k + 1 := ⟨fuel - 1, by omega⟩
    cases f <;> simp [appendStringLoop, unquoteLoop]
  | succ n ih =>
    intro s f g fuel hn hf hg hfu hv
    cases s with
    | nil =>
      obtain ⟨k, rfl⟩ : ∃ k, fuel = k + 1 := ⟨fuel - 1, by omega⟩
      cases f <;> simp [appendStringLoop, unquoteLoop]
    | cons b t =>
      simp only [List.length_cons] at hn hf hg
      obtain ⟨k, rfl⟩ : ∃ k, fuel = k + 1 := ⟨fuel - 1, by omega⟩
      obtain ⟨f, rfl⟩ : ∃ k, f = k + 1 := ⟨f - 1, by omega⟩
      obtain ⟨g, rfl⟩ : ∃ k, g = k + 1 := ⟨g - 1, by omega⟩
      simp only [validLoop] at hv
      split_ifs at hv with hinv
      obtain ⟨h1, h2, h3, h4, h5⟩ := DecodeRune_valid b t hinv
      have hlen : ((b :: t).drop (DecodeRune (b :: t)).2).length ≤ t.length := by
        rw [List.length_drop]; simp only [List.length_cons]; omega
      have IH := fun hk => ih _ f g k (by omega) (by omega) (by omega) hk hv
      by_cases h0 : b < 0x80
      · have hd : DecodeRune (b :: t) = (b, 1) := by simp [DecodeRune, h0]
        rw [hd] at IH
        simp only [List.drop_succ_cons, List.drop_zero] at IH
        by_cases hs : htmlSafeSet b = true
        · have e : appendStringLoop (f + 1) (b :: t) = b :: appendStringLoop f t := by
            simp only [appendStringLoop, h0, hs, if_true]
          rw [e] at hfu ⊢
          simp only [List.length_cons] at hfu
          rw [List.cons_append, unquoteLoop_safe b k _ hs, IH (by omega)]; rfl
        · have e : appendStringLoop (f + 1) (b :: t) = escapeASCII b ++ appendStringLoop f t := by
            simp only [appendStringLoop, h0, hs, if_true, if_false, Bool.false_eq_true]
          rw [e] at hfu ⊢
          have := escapeASCII_length_pos b
          simp only [List.length_append] at hfu
          rw [List.append_assoc, unquoteLoop_escapeASCII b k _ h0, IH (by omega)]; rfl
      · by_cases hc : (DecodeRune (b :: t)).1 = 0x2028 ∨ (DecodeRune (b :: t)).1 = 0x2029
        · have e : appendStringLoop (f + 1) (b :: t) =
              ascii "\\u202" ++ hex ((DecodeRune (b :: t)).1 % 16) ::
                appendStringLoop f ((b :: t).drop (DecodeRune (b :: t)).2) := by
            simp only [appendStringLoop, h0, if_false, DecodeRune_take_four, hinv, hc, if_true]
          rw [e] at hfu ⊢
          simp only [List.length_append, List.length_cons] at hfu
          rw [List.append_assoc, List.cons_append, unquoteLoop_lineSep _ k _ hc, IH (by omega), h4]
          simp
        · have e : appendStringLoop (f + 1) (b :: t) =
              (b :: t).take (DecodeRune (b :: t)).2 ++
                appendStringLoop f ((b :: t).drop (DecodeRune (b :: t)).2) := by
            simp only [appendStringLoop, h0, if_false, DecodeRune_take_four, hinv, hc]
          rw [e] at hfu ⊢
          have hl : ((b :: t).take (DecodeRune (b :: t)).2).length = (DecodeRune (b :: t)).2 := by
            rw [List.length_take]; omega
          simp only [List.length_append, hl] at hfu
          rw [List.append_assoc, unquoteLoop_rune b k t _ h0 hinv, IH (by omega)]
          simp

/-- A valid UTF-8 string is read back from its JSON literal, whatever follows. -/
theorem readString_appendString (s rest : List Nat) (hv : Valid s = true) :
    readString (appendString s ++ rest) = some (s, rest) := by
  simp only [appendString, readString, List.cons_append, List.append_assoc,
    List.singleton_append]
  exact unquoteLoop_appendStringLoop rest s.length s s.length s.length _ le_rfl le_rfl le_rfl
    (by simp only [List.length_append, List.length_cons]; omega) hv

/-! ### Numbers survive -/

theorem formatBits_append (fuel u : Nat) (acc y : List Nat) :
    formatBits fuel u acc ++ y = formatBits fuel u (acc ++ y) := by
  induction fuel generalizing u acc with
  | zero => rfl
  | succ f ih =>
    simp only [formatBits]
    split_ifs
    · rfl
    · rw [ih]; rfl

theorem readDigits_digit (a d : Nat) (x : List Nat) (hd : d < 10) :
    readDigits a ((48 + d) :: x) = readDigits (a * 10 + d) x := by
  have h : 48 ≤ 48 + d ∧ 48 + d ≤ 57 := by omega
  simp only [readDigits, h, and_self, if_true]
  congr 2; omega

/-- Reading the digits that `formatBits` writes gives the number back, and the
first digit of a positive number is not `0`. -/
theorem readDigits_formatBits (fuel : Nat) :
    ∀ (u : Nat) (acc : List Nat), u < 10 ^ fuel → 0 < fuel →
      (∃ k, ∀ a, readDigits a (formatBits fuel u acc) = readDigits (a * 10 ^ k + u) acc) ∧
      (u ≠ 0 → ∃ c tl, formatBits fuel u acc = c :: tl ∧ 49 ≤ c ∧ c ≤ 57) := by
  induction fuel with
  | zero => intro u acc _ h; omega
  | succ f ih =>
    intro u acc hu _
    by_cases h10 : u < 10
    · simp only [formatBits, h10, if_true]
      refine ⟨⟨1, fun a => ?_⟩, fun h0 => ⟨48 + u, acc, rfl, by omega, by omega⟩⟩
      rw [readDigits_digit a u acc h10, pow_one]
    · simp only [formatBits, h10, if_false]
      have hq : u / 10 < 10 ^ f := by
        apply Nat.div_lt_of_lt_mul
        rw [pow_succ] at hu; omega
      have hf : 0 < f := by
        rcases Nat.eq_zero_or_pos f with h | h
        · subst h; simp at hq; omega
        · exact h
      obtain ⟨⟨k, hk⟩, hc⟩ := ih (u / 10) ((48 + u % 10) :: acc) hq hf
      refine ⟨⟨k + 1, fun a => ?_⟩, fun _ => hc (by omega)⟩
      rw [hk a, readDigits_digit _ _ _ (by omega)]
      congr 1
      rw [pow_succ]
      have := Nat.div_add_mod u 10
      nlinarith [Nat.div_add_mod u 10]

/-- A `uint` is read back from its decimal numeral when a comma follows. -/
theorem readUint_formatUint (u : Nat) (x : List Nat) (hu : u < 2 ^ 64) :
    readUint (formatUint u ++ 44 :: x) = some (u, 44 :: x) := by
  unfold formatUint
  rw [formatBits_append, List.nil_append]
  have hlt : u < 10 ^ 20 := by
    have : (2 : Nat) ^ 64 < 10 ^ 20 := by norm_num
    omega
  obtain ⟨⟨k, hk⟩, hc⟩ := readDigits_formatBits 20 u (44 :: x) hlt (by norm_num)
  by_cases h0 : u = 0
  · subst h0
    simp [formatBits, readUint, startsFraction]
  · obtain ⟨c, tl, e, hc1, hc2⟩ := hc h0
    have hcd : 48 ≤ c ∧ c ≤ 57 := by omega
    have hne : ¬ c = 48 := by omega
    have hr : readDigits u (44 :: x) = (u, 44 :: x) := by simp [readDigits]
    have hl : readDigits 0 (c :: tl) = readDigits (c - 48) tl := by
      simp only [readDigits, hcd, and_self, if_true, Nat.zero_mul, Nat.zero_add]
    have h := hk 0
    rw [e, Nat.zero_mul, Nat.zero_add, hr, hl] at h
    rw [e]
    simp only [readUint, hne, if_false, hc1, hc2, and_self, if_true, h, startsFraction, hu]
    simp

/-! ### Members survive -/

theorem expect_append (lit x : List Nat) : expect lit (lit ++ x) = some x := by
  induction lit with
  | nil => cases x <;> rfl
  | cons l lit ih => simp [expect, ih]

theorem member_append {α : Type} (lit x : List Nat) (read : List Nat → Option (α × List Nat)) :
    member lit read (lit ++ x) = read x := by
  simp [member, expect_append]

/-- The scanner finds the end of a literal whose text is RFC 3339. -/
theorem scanString_rfc3339 (text rest : List Nat) (h : ∀ b ∈ text, isRFC3339Byte b = true) :
    ∀ fuel, text.length < fuel → scanString fuel (text ++ 34 :: rest) = some (text, rest) := by
  induction text with
  | nil =>
    intro fuel hf
    obtain ⟨k, rfl⟩ : ∃ k, fuel = k + 1 := ⟨fuel - 1, by simp at hf; omega⟩
    simp [scanString]
  | cons b t ih =>
    intro fuel hf
    simp only [List.length_cons] at hf
    obtain ⟨k, rfl⟩ : ∃ k, fuel = k + 1 := ⟨fuel - 1, by omega⟩
    have hb := h b (List.mem_cons_self _ _)
    have c : b ≠ 34 ∧ b ≠ 92 ∧ ¬ b < 0x20 := by
      simp only [isRFC3339Byte, Bool.or_eq_true, Bool.and_eq_true, decide_eq_true_eq,
        beq_iff_eq] at hb
      omega
    simp only [List.cons_append, scanString, c.1, c.2.1, c.2.2, if_false]
    rw [ih (fun b hb => h b (List.mem_cons_of_mem _ hb)) k (by omega)]
    rfl

theorem TimeSurvives_spec (tc : TimeCodec) (t : tc.Time) (h : TimeSurvives tc t = true) :
    ∃ s, tc.format t = some s ∧ tc.parse s = some t := by
  unfold TimeSurvives at h
  cases hf : tc.format t with
  | none => rw [hf] at h; cases h
  | some s =>
    rw [hf] at h
    exact ⟨s, rfl, of_decide_eq_true h⟩

/-- A time that survives is read back from what `Time.MarshalJSON` writes. -/
theorem readTime_marshalTime (tc : TimeCodec) (t t0 : tc.Time) (rest : List Nat)
    (h : TimeSurvives tc t = true) :
    ∃ b, marshalTime tc t = .ok b ∧ readTime tc t0 (b ++ rest) = some (t, rest) := by
  obtain ⟨s, hs, hp⟩ := TimeSurvives_spec tc t h
  refine ⟨34 :: (s ++ [34]), by simp [marshalTime, hs], ?_⟩
  have hscan := scanString_rfc3339 s rest (tc.format_rfc3339 t s hs) (s ++ 34 :: rest).length
    (by simp)
  simp only [List.cons_append, List.append_assoc, List.singleton_append, List.nil_append,
    readTime, hscan, hp]
  rfl

/-- A `DeletedAt` that is valid with a surviving time, or is zero, is read back. -/
theorem readDeletedAt_marshalDeletedAt (tc : TimeCodec) (d : DeletedAt tc.Time)
    (rest : List Nat)
    (h : (if d.Valid then TimeSurvives tc d.Time else decide (d.Time = tc.zero)) = true) :
    ∃ b, marshalDeletedAt tc d = .ok b ∧
      readDeletedAt tc { Time := tc.zero, Valid := false } (b ++ rest) = some (d, rest) := by
  obtain ⟨t, valid⟩ := d
  cases valid with
  | false =>
    simp only [Bool.false_eq_true, if_false, decide_eq_true_eq] at h
    subst h
    exact ⟨ascii "null", by simp [marshalDeletedAt], by simp [readDeletedAt, ascii]⟩
  | true =>
    simp only [if_true] at h
    obtain ⟨s, hs, hp⟩ := TimeSurvives_spec tc t h
    refine ⟨34 :: (s ++ [34]), by simp [marshalDeletedAt, marshalTime, hs], ?_⟩
    have hscan := scanString_rfc3339 s rest (tc.format_rfc3339 t s hs) (s ++ 34 :: rest).length
      (by simp)
    simp only [List.cons_append, List.append_assoc, List.singleton_append, List.nil_append,
      readDeletedAt, readTime, hscan, hp]
    rfl

/-- Every representable order is read back from what `json.Marshal` writes. -/
theorem jsonDecode_jsonMarshal (tc : TimeCodec) (v : ShippingOrder tc.Time)
    (h : JSONRepresentable tc v = true) :
    ∃ b, jsonMarshal tc v = .ok b ∧ jsonDecode tc b = some v := by
  obtain ⟨m, o, vd, a⟩ := v
  obtain ⟨id, c, u, d⟩ := m
  simp only [JSONRepresentable, Bool.and_eq_true, decide_eq_true_eq] at h
  obtain ⟨⟨⟨⟨⟨⟨hid, hc⟩, hu⟩, hd⟩, ho⟩, hv⟩, ha⟩ := h
  obtain ⟨bd, ebd, rbd⟩ := readDeletedAt_marshalDeletedAt tc d
    (ascii ",\"order_id\":" ++ (appendString o ++ (ascii ",\"vendor\":" ++
      (appendString vd ++ (ascii ",\"address\":" ++ (appendString a ++ ascii "\x7d")))))) hd
  obtain ⟨bu, ebu, rbu⟩ := readTime_marshalTime tc u tc.zero
    (ascii ",\"DeletedAt\":" ++ (bd ++
    (ascii ",\"order_id\":" ++ (appendString o ++ (ascii ",\"vendor\":" ++
      (appendString vd ++ (ascii ",\"address\":" ++ (appendString a ++ ascii "\x7d")))))))) hu
  obtain ⟨bc, ebc, rbc⟩ := readTime_marshalTime tc c tc.zero
    (ascii ",\"UpdatedAt\":" ++ (bu ++ (ascii ",\"DeletedAt\":" ++ (bd ++
    (ascii ",\"order_id\":" ++ (appendString o ++ (ascii ",\"vendor\":" ++
      (appendString vd ++ (ascii ",\"address\":" ++ (appendString a ++ ascii "\x7d")))))))))) hc
  refine ⟨ascii "\x7b\"ID\":" ++ (formatUint id ++ (ascii ",\"CreatedAt\":" ++ (bc ++
      (ascii ",\"UpdatedAt\":" ++ (bu ++ (ascii ",\"DeletedAt\":" ++ (bd ++
      (ascii ",\"order_id\":" ++ (appendString o ++ (ascii ",\"vendor\":" ++
      (appendString vd ++ (ascii ",\"address\":" ++ (appendString a ++
      ascii "\x7d"))))))))))))), by simp only [jsonMarshal, ebc, ebu, ebd], ?_⟩
  have hcomma : ∀ x : List Nat, ascii ",\"CreatedAt\":" ++ x = 44 :: (ascii "\"CreatedAt\":" ++ x) :=
    fun _ => rfl
  have hm : readModel tc (ascii "\x7b\"ID\":" ++ (formatUint id ++ (ascii ",\"CreatedAt\":" ++ (bc ++
      (ascii ",\"UpdatedAt\":" ++ (bu ++ (ascii ",\"DeletedAt\":" ++ (bd ++
      (ascii ",\"order_id\":" ++ (appendString o ++ (ascii ",\"vendor\":" ++
      (appendString vd ++ (ascii ",\"address\":" ++ (appendString a ++
      ascii "\x7d")))))))))))))) =
      some ({ ID := id, CreatedAt := c, UpdatedAt := u, DeletedAt := d },
        ascii ",\"order_id\":" ++ (appendString o ++ (ascii ",\"vendor\":" ++
      (appendString vd ++ (ascii ",\"address\":" ++ (appendString a ++ ascii "\x7d")))))) := by
    unfold readModel
    rw [member_append, hcomma, readUint_formatUint id _ hid, ← hcomma]
    simp only [member_append, rbc, rbu, rbd]
  unfold jsonDecode
  rw [hm]
  simp only [member_append, readString_appendString _ _ ho, readString_appendString _ _ hv,
    readString_appendString _ _ ha, if_true]

/-! ### Store facts -/

theorem statusField_ne_valueField : statusField ≠ valueField := by decide

theorem no_record_field (db : DB) (key : List Nat) (h : ¬ db.hasRecord key) (f : List Nat) :
    db key f = none := by
  by_contra hne
  exact h ⟨f, hne⟩

/-- The store after `Start` is the store after its `HSetNX`. -/
theorem Start_store {T : Type} (c : Codec T) (db : DB) (k : List Nat) (n1 n2 : Net) :
    (Start c db k n1 n2).1 = (HSetNX db (recordKey k) statusField started n1).1 := by
  unfold Start
  split
  · next h => rw [h]
  · next h => rw [h]
  · next h =>
    rw [h]
    split
    · rfl
    · split <;> rfl

/-- On a key whose `"status"` is not set, a `Start` whose `HSetNX` works returns
`(zero, false, nil)` and sets it. -/
theorem Start_unset {T : Type} (c : Codec T) (db : DB) (k : List Nat) (n2 : Net)
    (h : db (recordKey k) statusField = none) :
    Start c db k .ok n2 =
      (db.hset (recordKey k) statusField started, (c.zero, false, none)) := by
  simp [Start, HSetNX, DB.hsetnx, h]

/-- On a key whose `"status"` is set, `HSetNX` changes nothing. -/
theorem hsetnx_set (db : DB) (key value : List Nat) (h : db key statusField ≠ none) :
    db.hsetnx key statusField value = (db, false) := by
  unfold DB.hsetnx
  cases hs : db key statusField with
  | none => exact absurd hs h
  | some _ => rfl

/-- On a key whose `"status"` is set, `Start` leaves the store as it is and does
not return `(_, false, nil)`. -/
theorem Start_set {T : Type} (c : Codec T) (db : DB) (k : List Nat) (n1 n2 : Net)
    (h : db (recordKey k) statusField ≠ none) :
    (Start c db k n1 n2).1 = db ∧
    ¬ ((Start c db k n1 n2).2.2.1 = false ∧ (Start c db k n1 n2).2.2.2 = none) := by
  constructor
  · rw [Start_store]
    cases n1 <;> simp [HSetNX, hsetnx_set db _ _ h]
  · unfold Start
    cases n1 with
    | ok =>
      simp only [HSetNX, hsetnx_set db _ _ h]
      split
      · simp
      · split <;> simp
    | lostRequest e => simp [HSetNX]
    | lostReply e => simp [HSetNX]

/-- A `Start` that returns `(_, false, nil)` has set `"status"`. -/
theorem Start_fresh_sets {T : Type} (c : Codec T) (db : DB) (k : List Nat) (n1 n2 : Net)
    (h : (Start c db k n1 n2).2.2.1 = false ∧ (Start c db k n1 n2).2.2.2 = none) :
    (Start c db k n1 n2).1 (recordKey k) statusField ≠ none := by
  by_cases hs : db (recordKey k) statusField = none
  · rw [Start_store]
    cases n1 with
    | ok => simp [HSetNX, DB.hsetnx, hs, DB.hset]
    | lostRequest e => simp [Start, HSetNX] at h
    | lostReply e => simp [Start, HSetNX] at h
  · exact absurd h (Start_set c db k n1 n2 hs).2

/-- The `HSetNX` of `Start` removes no `"status"` field. -/
theorem HSetNX_keeps_status (db : DB) (key key1 value : List Nat) (n : Net)
    (h : db key statusField ≠ none) :
    (HSetNX db key1 statusField value n).1 key statusField ≠ none := by
  have hx : (db.hsetnx key1 statusField value).1 key statusField ≠ none := by
    unfold DB.hsetnx
    cases db key1 statusField with
    | some _ => exact h
    | none =>
      simp only [DB.hset]
      split_ifs
      · simp
      · exact h
  cases n
  · exact hx
  · exact h
  · exact hx

/-- No call removes a `"status"` field. -/
theorem perform_keeps_status {T : Type} (c : Codec T) (db : DB) (call : Call T)
    (key : List Nat) (h : db key statusField ≠ none) :
    (perform c db call).1 key statusField ≠ none := by
  cases call with
  | start k n1 n2 =>
    simp only [perform, Start_store]
    exact HSetNX_keeps_status db key _ _ n1 h
  | store k v n =>
    simp only [perform, Store]
    cases c.marshal v with
    | error e => simpa using h
    | ok b =>
      cases n <;> simp [HSet, DB.hset, statusField_ne_valueField, h]

/-- No sequence of calls removes a `"status"` field. -/
theorem run_keeps_status {T : Type} (c : Codec T) (calls : List (Call T)) :
    ∀ (db : DB) (key : List Nat), db key statusField ≠ none →
      (run c db calls).1 key statusField ≠ none := by
  induction calls with
  | nil => intro db key h; exact h
  | cons call calls ih =>
    intro db key h
    simp only [run]
    exact ih _ key (perform_keeps_status c db call key h)

/-- Once `"status"` is set on a key, no `Start` on it returns `(_, false, nil)`. -/
theorem run_no_fresh {T : Type} (c : Codec T) (k : List Nat) (calls : List (Call T)) :
    ∀ db : DB, db (recordKey k) statusField ≠ none →
      ∀ e ∈ (run c db calls).2, isFreshStart k e = false := by
  induction calls with
  | nil => intro db _ e he; simp [run] at he
  | cons call calls ih =>
    intro db h e he
    simp only [run, List.mem_cons] at he
    rcases he with rfl | he
    · cases call with
      | start k1 n1 n2 =>
        by_cases hk : k1 = k
        · subst hk
          have hns := (Start_set c db k1 n1 n2 h).2
          simp only [perform]
          rcases hr : (Start c db k1 n1 n2).2 with ⟨t, dup, err⟩
          rw [hr] at hns
          cases dup <;> cases err <;> simp_all [isFreshStart]
        · simp only [perform]
          rcases (Start c db k1 n1 n2).2 with ⟨t, dup, err⟩
          cases dup <;> cases err <;> simp [isFreshStart, hk]
      | store k1 v n => simp [perform, isFreshStart]
    · exact ih _ (perform_keeps_status c db call _ h) e he

/-! ### The claims on `Start` and `Store` alone -/

/-- C1. On a store with no record under `"idempotency:"+k`, a `Start(k)` whose store
call succeeds returns `(zero, false, nil)`, and the record then has its field
`"status"` set to `"started"`. -/
theorem start_fresh_claim {T : Type} (c : Codec T) (db : DB) (k : List Nat) (n2 : Net)
    (h : ¬ db.hasRecord (recordKey k)) :
    (Start c db k .ok n2).2 = (c.zero, false, none) ∧
    (Start c db k .ok n2).1 (recordKey k) statusField = some started := by
  rw [Start_unset c db k n2 (no_record_field db _ h _)]
  simp [DB.hset]

theorem empty_no_record (key : List Nat) : ¬ DB.empty.hasRecord key := by
  rintro ⟨f, hf⟩
  exact hf rfl

/-- C1, witness: the key `K1` on the empty store. -/
theorem start_fresh_claim_witness :
    ¬ DB.empty.hasRecord (recordKey keyK1) ∧
    (Start (shippingCodec zeroClock) DB.empty keyK1 .ok .ok).2 =
      (ShippingOrder.zero zeroClock, false, none) ∧
    (Start (shippingCodec zeroClock) DB.empty keyK1 .ok .ok).1 (recordKey keyK1) statusField =
      some started :=
  ⟨empty_no_record _,
    start_fresh_claim (shippingCodec zeroClock) DB.empty keyK1 .ok (empty_no_record _)⟩

/-- C6. `Start(k)` returns a non-nil error when its `HSetNX` fails, when the key is
claimed and the `"value"` field cannot be read (a failed call or an absent
field), and when the bytes read do not deserialize; it returns a nil error when
`HSetNX` succeeds on an unclaimed key, and when the key is claimed and the value
is read and deserializes, in which case `isDuplicate` is true.  Whenever the
error is non-nil, `isDuplicate` is false. -/
theorem start_failure_signalling {T : Type} (c : Codec T) (db : DB) (k : List Nat)
    (n1 n2 : Net) :
    (n1 ≠ .ok → (Start c db k n1 n2).2.2.2 ≠ none) ∧
    (n1 = .ok → db (recordKey k) statusField ≠ none →
      (n2 ≠ .ok ∨ db (recordKey k) valueField = none) → (Start c db k n1 n2).2.2.2 ≠ none) ∧
    (∀ b, n1 = .ok → db (recordKey k) statusField ≠ none → n2 = .ok →
      db (recordKey k) valueField = some b → (c.unmarshal b).2 ≠ none →
      (Start c db k n1 n2).2.2.2 ≠ none) ∧
    (n1 = .ok → db (recordKey k) statusField = none → (Start c db k n1 n2).2.2.2 = none) ∧
    (∀ b, n1 = .ok → db (recordKey k) statusField ≠ none → n2 = .ok →
      db (recordKey k) valueField = some b → (c.unmarshal b).2 = none →
      (Start c db k n1 n2).2 = ((c.unmarshal b).1, true, none)) ∧
    ((Start c db k n1 n2).2.2.2 ≠ none → (Start c db k n1 n2).2.2.1 = false) := by
  refine ⟨?_, ?_, ?_, ?_, ?_, ?_⟩
  · intro h
    cases n1 with
    | ok => exact absurd rfl h
    | lostRequest e => simp [Start, HSetNX]
    | lostReply e => simp [Start, HSetNX]
  · rintro rfl hs hv
    simp only [Start, HSetNX, hsetnx_set db _ _ hs]
    rcases hv with hv | hv
    · cases n2 with
      | ok => exact absurd rfl hv
      | lostRequest e => simp [HGet]
      | lostReply e => simp [HGet]
    · cases n2 <;> simp [HGet, hv]
  · rintro b rfl hs rfl hv hu
    simp only [Start, HSetNX, hsetnx_set db _ _ hs, HGet, hv]
    rcases hc : c.unmarshal b with ⟨t1, err⟩
    rw [hc] at hu
    cases err with
    | none => exact absurd rfl hu
    | some e => simp
  · rintro rfl hs
    rw [Start_unset c db k n2 hs]
  · rintro b rfl hs rfl hv hu
    simp only [Start, HSetNX, hsetnx_set db _ _ hs, HGet, hv]
    rcases hc : c.unmarshal b with ⟨t1, err⟩
    rw [hc] at hu
    simp only at hu
    subst hu
    rfl
  · intro h
    unfold Start at h ⊢
    rcases h1 : HSetNX db (recordKey k) statusField started n1 with ⟨db1, e | r⟩
    · rfl
    · rw [h1] at h
      cases r with
      | true => rfl
      | false =>
        simp only at h ⊢
        rcases h2 : HGet db1 (recordKey k) valueField n2 with e | b
        · rfl
        · rw [h2] at h
          simp only at h ⊢
          rcases h3 : c.unmarshal b with ⟨t1, _ | e⟩
          · rw [h3] at h; exact absurd rfl h
          · rfl

/-- C6, witness: on the key `K1` of the empty store, a `Start` whose `HSetNX` is lost
returns a non-nil error with `isDuplicate` false, and a second `Start` after a
first one returns the error `redis.Nil`, the `"value"` field being absent. -/
theorem start_failure_signalling_witness :
    (Start (shippingCodec zeroClock) DB.empty keyK1 (.lostRequest (.redis 1)) .ok).2.2.2
      ≠ none ∧
    (Start (shippingCodec zeroClock) DB.empty keyK1 (.lostRequest (.redis 1)) .ok).2.2.1
      = false ∧
    (Start (shippingCodec zeroClock) (DB.empty.hset (recordKey keyK1) statusField started)
      keyK1 .ok .ok).2.2.2 ≠ none :=
  ⟨(start_failure_signalling (shippingCodec zeroClock) DB.empty keyK1
      (.lostRequest (.redis 1)) .ok).1 (by decide),
    (start_failure_signalling (shippingCodec zeroClock) DB.empty keyK1
      (.lostRequest (.redis 1)) .ok).2.2.2.2.2
      ((start_failure_signalling (shippingCodec zeroClock) DB.empty keyK1
        (.lostRequest (.redis 1)) .ok).1 (by decide)),
    (start_failure_signalling (shippingCodec zeroClock)
      (DB.empty.hset (recordKey keyK1) statusField started) keyK1 .ok .ok).2.1 rfl
      (by decide) (Or.inr (by decide))⟩

/-! ### Reading back what was stored -/

/-- A `Store` whose value is encoded and whose store call works. -/
theorem Store_ok {T : Type} (c : Codec T) (db : DB) (k : List Nat) (v : T) (b : List Nat)
    (h : c.marshal v = .ok b) :
    Store c db k v .ok = (db.hset (recordKey k) valueField b, none) := by
  simp [Store, h, HSet]

/-- On a claimed key whose value decodes, `Start` returns the decoded value. -/
theorem Start_reads {T : Type} (c : Codec T) (db : DB) (k b : List Nat) (v : T)
    (hs : db (recordKey k) statusField ≠ none) (hv : db (recordKey k) valueField = some b)
    (hu : c.unmarshal b = (v, none)) :
    Start c db k .ok .ok = (db, (v, true, none)) := by
  simp [Start, HSetNX, hsetnx_set db _ _ hs, HGet, hv, hu]

theorem hset_same (db : DB) (key field value : List Nat) :
    db.hset key field value key field = some value := by
  simp [DB.hset]

/-! ### The claims on stored values -/

/-- C2, amended. For every key `k` and every JSON-representable `ShippingOrder`
`v`, on a store with no record for `k` and with every store call succeeding, the
sequence `Start(k); Store(k, v); Start(k)` goes: the first `Start` returns
`(zero, false, nil)`, `Store` returns nil, and the second `Start` returns
`(v, true, nil)`. -/
theorem claim_publish_claim (tc : TimeCodec) (db : DB) (k : List Nat)
    (v : ShippingOrder tc.Time) (h : ¬ db.hasRecord (recordKey k))
    (hv : JSONRepresentable tc v = true) :
    (Start (shippingCodec tc) db k .ok .ok).2 = (ShippingOrder.zero tc, false, none) ∧
    (Store (shippingCodec tc) (Start (shippingCodec tc) db k .ok .ok).1 k v .ok).2 = none ∧
    (Start (shippingCodec tc)
      (Store (shippingCodec tc) (Start (shippingCodec tc) db k .ok .ok).1 k v .ok).1
      k .ok .ok).2 = (v, true, none) := by
  obtain ⟨b, hb, hd⟩ := jsonDecode_jsonMarshal tc v hv
  have hm : (shippingCodec tc).marshal v = .ok b := hb
  have hu : (shippingCodec tc).unmarshal b = (v, none) := by
    simp [shippingCodec, jsonUnmarshal, hd]
  rw [Start_unset _ db k .ok (no_record_field db _ h _), Store_ok _ _ k v b hm]
  refine ⟨rfl, rfl, ?_⟩
  rw [Start_reads _ _ k b v (by simp [DB.hset, statusField_ne_valueField]) (hset_same _ _ _ _) hu]

theorem orderA_representable : JSONRepresentable zeroClock orderA = true := by
  decide

/-- C2, witness: Scenario A, with the key `K1` and the order with id 1, order_id
`K1`, vendor `V`, address `A`, on the empty store. -/
theorem claim_publish_claim_witness :
    (Start (shippingCodec zeroClock) DB.empty keyK1 .ok .ok).2 =
      (ShippingOrder.zero zeroClock, false, none) ∧
    (Store (shippingCodec zeroClock) (Start (shippingCodec zeroClock) DB.empty keyK1 .ok .ok).1
      keyK1 orderA .ok).2 = none ∧
    (Start (shippingCodec zeroClock)
      (Store (shippingCodec zeroClock)
        (Start (shippingCodec zeroClock) DB.empty keyK1 .ok .ok).1 keyK1 orderA .ok).1
      keyK1 .ok .ok).2 = (orderA, true, none) :=
  claim_publish_claim zeroClock DB.empty keyK1 orderA (empty_no_record _) orderA_representable

/-- C2, counterexample. With `k = "K1"` and an order whose `OrderID` is the byte
`0xFF`, on the empty store, the second `Start` returns another order, the one with
U+FFFD as its `OrderID`. -/
theorem invalid_utf8_is_not_read_back :
    ¬ DB.empty.hasRecord (recordKey keyK1) ∧
    (Start (shippingCodec zeroClock)
      (Store (shippingCodec zeroClock)
        (Start (shippingCodec zeroClock) DB.empty keyK1 .ok .ok).1 keyK1 orderFF .ok).1
      keyK1 .ok .ok).2 = (orderFFFD, true, none) ∧
    orderFFFD ≠ orderFF :=
  ⟨empty_no_record _, by decide, by decide⟩

/-- C4, amended. For every key `k` and every two values `v1`, `v2` that
`json.Marshal` encodes, with the store calls succeeding, `Store(k, v1)` then
`Store(k, v2)` both return nil and the `"value"` field then holds the bytes of
`v2`; a `Start(k)` on the duplicate path that follows returns what
`json.Unmarshal` makes of these bytes, which is `v2` when `v2` survives the
round trip. -/
theorem store_twice {T : Type} (c : Codec T) (db : DB) (k : List Nat) (v1 v2 : T)
    (b1 b2 : List Nat) (h1 : c.marshal v1 = .ok b1) (h2 : c.marshal v2 = .ok b2) :
    (Store c db k v1 .ok).2 = none ∧
    (Store c (Store c db k v1 .ok).1 k v2 .ok).2 = none ∧
    (Store c (Store c db k v1 .ok).1 k v2 .ok).1 (recordKey k) valueField = some b2 ∧
    (db (recordKey k) statusField ≠ none → (c.unmarshal b2).2 = none →
      (Start c (Store c (Store c db k v1 .ok).1 k v2 .ok).1 k .ok .ok).2 =
        ((c.unmarshal b2).1, true, none)) ∧
    (db (recordKey k) statusField ≠ none → c.unmarshal b2 = (v2, none) →
      (Start c (Store c (Store c db k v1 .ok).1 k v2 .ok).1 k .ok .ok).2 =
        (v2, true, none)) := by
  rw [Store_ok c db k v1 b1 h1, Store_ok c _ k v2 b2 h2]
  refine ⟨rfl, rfl, hset_same _ _ _ _, ?_, ?_⟩
  · intro hs hu
    rw [Start_reads c _ k b2 (c.unmarshal b2).1
      (by simpa [DB.hset, statusField_ne_valueField] using hs) (hset_same _ _ _ _)
      (by rw [← hu])]
  · intro hs hu
    rw [Start_reads c _ k b2 v2
      (by simpa [DB.hset, statusField_ne_valueField] using hs) (hset_same _ _ _ _) hu]

/-- C4, witness: two different orders on the key `"K1"`, claimed before. -/
theorem store_twice_witness :
    (Store (shippingCodec zeroClock)
      (Store (shippingCodec zeroClock) (DB.empty.hset (recordKey keyK1) statusField started)
        keyK1 orderFFFD .ok).1 keyK1 orderA .ok).2 = none ∧
    (Start (shippingCodec zeroClock)
      (Store (shippingCodec zeroClock)
        (Store (shippingCodec zeroClock) (DB.empty.hset (recordKey keyK1) statusField started)
          keyK1 orderFFFD .ok).1 keyK1 orderA .ok).1 keyK1 .ok .ok).2 = (orderA, true, none) :=
  have h := store_twice (shippingCodec zeroClock)
    (DB.empty.hset (recordKey keyK1) statusField started) keyK1 orderFFFD orderA
    _ _ rfl rfl
  ⟨h.2.1, h.2.2.2.2 (by decide) (by decide)⟩

/-- C4, counterexample. On the claimed key `"K1"`, `Store` of the order with U+FFFD
as its `OrderID` and then `Store` of the order with the byte `0xFF` both return
nil, and the `Start` that follows reads back the first order, not the second. -/
theorem second_store_reads_back_first :
    (Store (shippingCodec zeroClock) (DB.empty.hset (recordKey keyK1) statusField started)
      keyK1 orderFFFD .ok).2 = none ∧
    (Store (shippingCodec zeroClock)
      (Store (shippingCodec zeroClock) (DB.empty.hset (recordKey keyK1) statusField started)
        keyK1 orderFFFD .ok).1 keyK1 orderFF .ok).2 = none ∧
    (Start (shippingCodec zeroClock)
      (Store (shippingCodec zeroClock)
        (Store (shippingCodec zeroClock) (DB.empty.hset (recordKey keyK1) statusField started)
          keyK1 orderFFFD .ok).1 keyK1 orderFF .ok).1 keyK1 .ok .ok).2 =
      (orderFFFD, true, none) ∧
    orderFFFD ≠ orderFF := by
  decide

/-- C5, amended. For every JSON-representable `ShippingOrder` (an ID that is a
`uint`, string fields that are valid UTF-8, time stamps that survive their own
JSON methods, a `DeletedAt` that is valid with such a time or is zero),
`json.Marshal` succeeds and `json.Unmarshal` of its bytes succeeds and yields the
same value. -/
theorem json_round_trip (tc : TimeCodec) (v : ShippingOrder tc.Time)
    (h : JSONRepresentable tc v = true) :
    ∃ b, jsonMarshal tc v = .ok b ∧ jsonUnmarshal tc b = (v, none) := by
  obtain ⟨b, hb, hd⟩ := jsonDecode_jsonMarshal tc v h
  exact ⟨b, hb, by simp [jsonUnmarshal, hd]⟩

/-- C5, witness: the order of Scenario A. -/
theorem json_round_trip_witness :
    ∃ b, jsonMarshal zeroClock orderA = .ok b ∧ jsonUnmarshal zeroClock b = (orderA, none) :=
  json_round_trip zeroClock orderA (by decide)

/-- C5, counterexample. The order whose `OrderID` is the byte `0xFF` is encoded
with the escape of U+FFFD in its place, and decoding yields the order with U+FFFD
(`EF BF BD`) as its `OrderID`, which is another value. -/
theorem invalid_utf8_does_not_round_trip :
    jsonMarshal zeroClock orderFF = .ok documentFFFD ∧
    jsonUnmarshal zeroClock documentFFFD = (orderFFFD, none) ∧
    orderFFFD ≠ orderFF := by
  decide

/-! ### The claims on sequences of calls -/

/-- C8, amended. For every key `k` and every store state reached by any sequence
of `Start` and `Store` calls from a state in which the field `"status"` exists
under `"idempotency:"+k`, the field still exists and `Start(k)` takes the
duplicate path: it leaves the store as it is and does not return
`(_, false, nil)`. -/
theorem start_on_claimed_key {T : Type} (c : Codec T) (db : DB) (k : List Nat)
    (calls : List (Call T)) (n1 n2 : Net) (h : db (recordKey k) statusField ≠ none) :
    (run c db calls).1 (recordKey k) statusField ≠ none ∧
    (Start c (run c db calls).1 k n1 n2).1 = (run c db calls).1 ∧
    ¬ ((Start c (run c db calls).1 k n1 n2).2.2.1 = false ∧
       (Start c (run c db calls).1 k n1 n2).2.2.2 = none) :=
  ⟨run_keeps_status c calls db _ h,
    (Start_set c _ k n1 n2 (run_keeps_status c calls db _ h)).1,
    (Start_set c _ k n1 n2 (run_keeps_status c calls db _ h)).2⟩

/-- C8, witness: the key `"K1"` after a `Start`, then a `Store` and a `Start` on it. -/
theorem start_on_claimed_key_witness :
    (Start (shippingCodec zeroClock) DB.empty keyK1 .ok .ok).1 (recordKey keyK1) statusField
      ≠ none ∧
    ¬ ((Start (shippingCodec zeroClock)
        (run (shippingCodec zeroClock) (Start (shippingCodec zeroClock) DB.empty keyK1 .ok .ok).1
          [.store keyK1 orderA .ok, .start keyK1 .ok .ok]).1 keyK1 .ok .ok).2.2.1 = false ∧
       (Start (shippingCodec zeroClock)
        (run (shippingCodec zeroClock) (Start (shippingCodec zeroClock) DB.empty keyK1 .ok .ok).1
          [.store keyK1 orderA .ok, .start keyK1 .ok .ok]).1 keyK1 .ok .ok).2.2.2 = none) :=
  ⟨by decide,
    (start_on_claimed_key (shippingCodec zeroClock)
      (Start (shippingCodec zeroClock) DB.empty keyK1 .ok .ok).1 keyK1
      [.store keyK1 orderA .ok, .start keyK1 .ok .ok] .ok .ok (by decide)).2.2⟩

/-- C8, counterexample. After the single call `Store("K1", v)` on the empty store a
record exists under `"idempotency:K1"`, without a `"status"` field, and `Start("K1")`
returns `(zero, false, nil)` and writes `"status"`. -/
theorem start_after_store_only :
    (run (shippingCodec zeroClock) DB.empty [.store keyK1 orderA .ok]).1.hasRecord
      (recordKey keyK1) ∧
    (run (shippingCodec zeroClock) DB.empty [.store keyK1 orderA .ok]).1
      (recordKey keyK1) statusField = none ∧
    (Start (shippingCodec zeroClock)
      (run (shippingCodec zeroClock) DB.empty [.store keyK1 orderA .ok]).1 keyK1 .ok .ok).2 =
      (ShippingOrder.zero zeroClock, false, none) ∧
    (Start (shippingCodec zeroClock)
      (run (shippingCodec zeroClock) DB.empty [.store keyK1 orderA .ok]).1 keyK1 .ok .ok).1
      (recordKey keyK1) statusField = some started :=
  ⟨⟨valueField, by decide⟩, by decide, by decide, by decide⟩

theorem isFreshStart_perform {T : Type} (c : Codec T) (db : DB) (k : List Nat) (call : Call T)
    (h : isFreshStart k (call, (perform c db call).2) = true) :
    (perform c db call).1 (recordKey k) statusField ≠ none := by
  cases call with
  | start k1 n1 n2 =>
    simp only [perform] at h ⊢
    rcases hr : (Start c db k1 n1 n2).2 with ⟨t, dup, err⟩
    rw [hr] at h
    cases dup <;> cases err <;> simp [isFreshStart] at h
    subst h
    exact Start_fresh_sets c db k1 n1 n2 (by simp [hr])
  | store k1 v n => simp [perform, isFreshStart] at h

/-- At most one `Start(k)` of a sequence returns `(_, false, nil)`. -/
theorem run_fresh_le_one {T : Type} (c : Codec T) (k : List Nat) (calls : List (Call T)) :
    ∀ db : DB, ((run c db calls).2.filter (isFreshStart k)).length ≤ 1 := by
  induction calls with
  | nil => intro db; simp [run]
  | cons call calls ih =>
    intro db
    simp only [run]
    by_cases hf : isFreshStart k (call, (perform c db call).2) = true
    · have hnone := run_no_fresh c k calls _ (isFreshStart_perform c db k call hf)
      have : (run c (perform c db call).1 calls).2.filter (isFreshStart k) = [] := by
        rw [List.filter_eq_nil_iff]
        intro e he
        simp [hnone e he]
      simp [List.filter_cons, hf, this]
    · simp only [List.filter_cons, hf]
      exact ih _

/-- C9. For every key `k`, every initial store and every finite sequence of `Start`
and `Store` calls on any keys, each store call free to fail, at most one
`Start(k)` of the sequence returns `(_, false, nil)`; and when one did, every
later `Start(k)` of the sequence returns `isDuplicate = true` or a non-nil
error. -/
theorem at_most_one_fresh_owner {T : Type} (c : Codec T) (db : DB) (k : List Nat)
    (calls : List (Call T)) :
    ((run c db calls).2.filter (isFreshStart k)).length ≤ 1 ∧
    ∀ (pre post : List (Call T × Outcome T)) (x : Call T × Outcome T),
      (run c db calls).2 = pre ++ x :: post → isFreshStart k x = true →
      ∀ (m1 m2 : Net) (r : T × Bool × Option Error),
        (Call.start k m1 m2, Outcome.start r) ∈ post → r.2.1 = true ∨ r.2.2 ≠ none := by
  refine ⟨run_fresh_le_one c k calls db, ?_⟩
  intro pre post x hrun hx m1 m2 r hr
  have hle := run_fresh_le_one c k calls db
  rw [hrun, List.filter_append, List.filter_cons, hx] at hle
  simp only [if_true, List.length_append, List.length_cons] at hle
  have hpost : (post.filter (isFreshStart k)).length = 0 := by omega
  have hnot : isFreshStart k (Call.start k m1 m2, Outcome.start r) = false := by
    by_contra hc
    have hmem : (Call.start k m1 m2, Outcome.start r) ∈ post.filter (isFreshStart k) :=
      List.mem_filter.mpr ⟨hr, by simpa using hc⟩
    rw [List.length_eq_zero.mp hpost] at hmem
    exact absurd hmem (List.not_mem_nil _)
  obtain ⟨t, dup, err⟩ := r
  cases dup <;> cases err <;> simp_all [isFreshStart]

/-- C9, witness: three `Start("K1")` around a `Store`, the second one with a lost
reply; the first returns `(_, false, nil)` and the last one is a duplicate. -/
theorem at_most_one_fresh_owner_witness :
    ((run (shippingCodec zeroClock) DB.empty
      [.start keyK1 .ok .ok, .start keyK1 (.lostReply (.redis 1)) .ok,
        .store keyK1 orderA .ok, .start keyK1 .ok .ok]).2.filter (isFreshStart keyK1)).length
      ≤ 1 ∧
    (((orderA, true, none) : ShippingOrder zeroClock.Time × Bool × Option Error).2.1 = true ∨
      ((orderA, true, none) : ShippingOrder zeroClock.Time × Bool × Option Error).2.2 ≠ none) :=
  ⟨(at_most_one_fresh_owner (shippingCodec zeroClock) DB.empty keyK1
      [.start keyK1 .ok .ok, .start keyK1 (.lostReply (.redis 1)) .ok,
        .store keyK1 orderA .ok, .start keyK1 .ok .ok]).1,
    (at_most_one_fresh_owner (shippingCodec zeroClock) DB.empty keyK1
      [.start keyK1 .ok .ok, .start keyK1 (.lostReply (.redis 1)) .ok,
        .store keyK1 orderA .ok, .start keyK1 .ok .ok]).2
      [] (run (shippingCodec zeroClock) DB.empty
      [.start keyK1 .ok .ok, .start keyK1 (.lostReply (.redis 1)) .ok,
        .store keyK1 orderA .ok, .start keyK1 .ok .ok]).2.tail
      (Call.start keyK1 .ok .ok, Outcome.start (ShippingOrder.zero zeroClock, false, none))
      (by decide) (by decide) .ok .ok (orderA, true, none) (by decide)⟩

/-! ### Concurrent callers -/

/-- The two store calls of a caller, one after the other, are `Start`. -/
theorem stepStart_twice {T : Type} (c : Codec T) (k : List Nat) (db : DB) (n1 n2 : Net) :
    stepStart c k (stepStart c k db .ready n1).1 (stepStart c k db .ready n1).2 n2 =
      ((Start c db k n1 n2).1, .returned (Start c db k n1 n2).2) := by
  unfold Start
  simp only [stepStart]
  rcases HSetNX db (recordKey k) statusField started n1 with ⟨db1, e | r⟩
  · rfl
  · cases r with
    | true => rfl
    | false =>
      simp only
      rcases HGet db1 (recordKey k) valueField n2 with e | b
      · rfl
      · simp only
        rcases c.unmarshal b with ⟨t1, _ | e⟩ <;> rfl

theorem stepStart_ready_unset {T : Type} (c : Codec T) (k : List Nat) (db : DB)
    (h : db (recordKey k) statusField = none) :
    stepStart c k db .ready .ok =
      (db.hset (recordKey k) statusField started, .returned (c.zero, false, none)) := by
  simp [stepStart, HSetNX, DB.hsetnx, h]

theorem stepStart_ready_set {T : Type} (c : Codec T) (k : List Nat) (db : DB)
    (h : db (recordKey k) statusField ≠ none) :
    stepStart c k db .ready .ok = (db, .reading) := by
  simp [stepStart, HSetNX, hsetnx_set db _ _ h]

theorem stepStart_reading_absent {T : Type} (c : Codec T) (k : List Nat) (db : DB)
    (h : db (recordKey k) valueField = none) :
    stepStart c k db .reading .ok = (db, .returned (c.zero, false, some .redisNil)) := by
  simp [stepStart, HGet, h]

theorem stepStart_returned {T : Type} (c : Codec T) (k : List Nat) (db : DB)
    (r : T × Bool × Option Error) (n : Net) :
    stepStart c k db (.returned r) n = (db, .returned r) := rfl

theorem stepStart_rank {T : Type} (c : Codec T) (k : List Nat) (db : DB) (p : Phase T) :
    2 ≤ (stepStart c k db p .ok).2.rank ∨ p.rank + 1 ≤ (stepStart c k db p .ok).2.rank := by
  cases p with
  | ready =>
    by_cases h : db (recordKey k) statusField = none
    · rw [stepStart_ready_unset c k db h]; left; simp [Phase.rank]
    · rw [stepStart_ready_set c k db h]; right; simp [Phase.rank]
  | reading =>
    left
    simp only [stepStart]
    rcases HGet db (recordKey k) valueField .ok with e | b
    · simp [Phase.rank]
    · simp only
      rcases c.unmarshal b with ⟨t1, _ | e⟩ <;> simp [Phase.rank]
  | returned r => left; simp [stepStart, Phase.rank]

theorem advance_length {T : Type} (c : Codec T) (k : List Nat) (ps : List (Phase T)) :
    ∀ (i : Nat) (db : DB), (advance c k i db ps).2.length = ps.length := by
  induction ps with
  | nil => intro i db; cases i <;> rfl
  | cons p ps ih =>
    intro i db
    cases i with
    | zero => rfl
    | succ i => simp [advance, ih]

theorem advance_get {T : Type} (c : Codec T) (k : List Nat) (ps : List (Phase T)) :
    ∀ (i j : Nat) (db : DB), (advance c k i db ps).2[j]? =
      if j = i then (ps[j]?).map (fun p => (stepStart c k db p .ok).2) else ps[j]? := by
  induction ps with
  | nil => intro i j db; cases i <;> simp [advance]
  | cons p ps ih =>
    intro i j db
    cases i with
    | zero =>
      cases j with
      | zero => simp [advance]
      | succ j => simp [advance]
    | succ i =>
      cases j with
      | zero => simp [advance]
      | succ j => simp [advance, ih]

theorem advance_db {T : Type} (c : Codec T) (k : List Nat) (ps : List (Phase T)) :
    ∀ (i : Nat) (db : DB), (advance c k i db ps).1 =
      match ps[i]? with
      | some p => (stepStart c k db p .ok).1
      | none => db := by
  induction ps with
  | nil => intro i db; cases i <;> simp [advance]
  | cons p ps ih =>
    intro i db
    cases i with
    | zero => simp [advance]
    | succ i => simp [advance, ih]

/-- One store call of one caller keeps `RaceInv`. -/
theorem advance_inv {T : Type} (c : Codec T) (k : List Nat) (i : Nat) (db : DB)
    (ps : List (Phase T)) (h : RaceInv c k db ps) :
    RaceInv c k (advance c k i db ps).1 (advance c k i db ps).2 := by
  obtain ⟨h1, h2, h3, h4⟩ := h
  have hget := fun (j : Nat) => advance_get c k ps i j db
  cases hp : ps[i]? with
  | none =>
    have hdb : (advance c k i db ps).1 = db := by rw [advance_db, hp]
    have hsame : ∀ j : Nat, (advance c k i db ps).2[j]? = ps[j]? := by
      intro j
      rw [hget j]
      split_ifs with hj
      · subst hj; rw [hp]; rfl
      · rfl
    rw [hdb]
    exact ⟨h1, fun j p hj => h2 j p (by rw [← hsame j]; exact hj),
      fun hs j p hj => h3 hs j p (by rw [← hsame j]; exact hj),
      fun hs => by
        obtain ⟨i0, hi0, hother⟩ := h4 hs
        exact ⟨i0, by rw [hsame]; exact hi0, fun j hj => by rw [hsame]; exact hother j hj⟩⟩
  | some p =>
    have hdb : (advance c k i db ps).1 = (stepStart c k db p .ok).1 := by rw [advance_db, hp]
    have hgi : (advance c k i db ps).2[i]? = some (stepStart c k db p .ok).2 := by
      rw [hget i, if_pos rfl, hp]; rfl
    have hgo : ∀ j : Nat, j ≠ i → (advance c k i db ps).2[j]? = ps[j]? := by
      intro j hj; rw [hget j, if_neg hj]
    rcases h2 i p hp with rfl | rfl | rfl | rfl
    · by_cases hs : db (recordKey k) statusField = none
      · rw [stepStart_ready_unset c k db hs] at hdb hgi
        rw [hdb]
        refine ⟨by simpa [DB.hset, statusField_ne_valueField] using h1, ?_, ?_, ?_⟩
        · intro j q hj
          by_cases hji : j = i
          · subst hji; rw [hgi] at hj; cases hj; right; right; left; rfl
          · rw [hgo j hji] at hj; exact h2 j q hj
        · intro hnone
          simp [DB.hset] at hnone
        · intro _
          refine ⟨i, hgi, fun j hj => ?_⟩
          rw [hgo j hj]
          intro hq
          have := h3 hs j _ hq
          cases this
      · rw [stepStart_ready_set c k db hs] at hdb hgi
        rw [hdb]
        refine ⟨h1, ?_, fun hnone => absurd hnone hs, fun _ => ?_⟩
        · intro j q hj
          by_cases hji : j = i
          · subst hji; rw [hgi] at hj; cases hj; right; left; rfl
          · rw [hgo j hji] at hj; exact h2 j q hj
        · obtain ⟨i0, hi0, hother⟩ := h4 hs
          have hne : i0 ≠ i := by
            intro he; subst he; rw [hp] at hi0; cases hi0
          refine ⟨i0, by rw [hgo i0 hne]; exact hi0, fun j hj => ?_⟩
          by_cases hji : j = i
          · subst hji; rw [hgi]; simp
          · rw [hgo j hji]; exact hother j hj
    · rw [stepStart_reading_absent c k db h1] at hdb hgi
      rw [hdb]
      have hs : db (recordKey k) statusField ≠ none := by
        intro hnone
        have := h3 hnone i _ hp
        cases this
      refine ⟨h1, ?_, fun hnone => absurd hnone hs, fun _ => ?_⟩
      · intro j q hj
        by_cases hji : j = i
        · subst hji; rw [hgi] at hj; cases hj; right; right; right; rfl
        · rw [hgo j hji] at hj; exact h2 j q hj
      · obtain ⟨i0, hi0, hother⟩ := h4 hs
        have hne : i0 ≠ i := by
          intro he; subst he; rw [hp] at hi0; cases hi0
        refine ⟨i0, by rw [hgo i0 hne]; exact hi0, fun j hj => ?_⟩
        by_cases hji : j = i
        · subst hji; rw [hgi]; simp
        · rw [hgo j hji]; exact hother j hj
    all_goals
      rw [stepStart_returned] at hdb hgi
      have hsame : ∀ j : Nat, (advance c k i db ps).2[j]? = ps[j]? := by
        intro j
        by_cases hji : j = i
        · subst hji; rw [hgi, hp]
        · exact hgo j hji
      rw [hdb]
      exact ⟨h1, fun j p hj => h2 j p (by rw [← hsame j]; exact hj),
        fun hs j p hj => h3 hs j p (by rw [← hsame j]; exact hj),
        fun hs => by
          obtain ⟨i0, hi0, hother⟩ := h4 hs
          exact ⟨i0, by rw [hsame]; exact hi0, fun j hj => by rw [hsame]; exact hother j hj⟩⟩

theorem interleave_inv {T : Type} (c : Codec T) (k : List Nat) (sched : List Nat) :
    ∀ (db : DB) (ps : List (Phase T)), RaceInv c k db ps →
      RaceInv c k (interleave c k sched db ps).1 (interleave c k sched db ps).2 := by
  induction sched with
  | nil => intro db ps h; exact h
  | cons i sched ih => intro db ps h; exact ih _ _ (advance_inv c k i db ps h)

theorem interleave_length {T : Type} (c : Codec T) (k : List Nat) (sched : List Nat) :
    ∀ (db : DB) (ps : List (Phase T)), (interleave c k sched db ps).2.length = ps.length := by
  induction sched with
  | nil => intro db ps; rfl
  | cons i sched ih => intro db ps; simp [interleave, ih, advance_length]

/-- A caller that is scheduled often enough returns. -/
theorem interleave_returns {T : Type} (c : Codec T) (k : List Nat) (sched : List Nat) :
    ∀ (db : DB) (ps : List (Phase T)) (j : Nat) (p : Phase T), ps[j]? = some p →
      2 ≤ p.rank + sched.count j →
      ∃ q, (interleave c k sched db ps).2[j]? = some q ∧ q.rank = 2 := by
  induction sched with
  | nil =>
    intro db ps j p hp hr
    refine ⟨p, hp, ?_⟩
    simp only [List.count_nil, Nat.add_zero] at hr
    cases p <;> simp [Phase.rank] at hr ⊢
  | cons i sched ih =>
    intro db ps j p hp hr
    simp only [interleave]
    by_cases hji : j = i
    · subst hji
      have hg : (advance c k j db ps).2[j]? = some (stepStart c k db p .ok).2 := by
        rw [advance_get, if_pos rfl, hp]; rfl
      refine ih _ _ j _ hg ?_
      simp only [List.count_cons_self] at hr
      rcases stepStart_rank c k db p with h2 | h2 <;> omega
    · have hg : (advance c k i db ps).2[j]? = some p := by
        rw [advance_get, if_neg hji, hp]
      refine ih _ _ j p hg ?_
      rw [List.count_cons_of_ne hji] at hr
      exact hr

/-- C3, amended. For every key `k` and every `N ≥ 1`, when `N` callers of
`Start(k)` make their store calls in any order on a store with no record for `k`,
every store call succeeding and nothing being stored: a caller that is scheduled
twice has returned; and once all `N` callers have returned, exactly one has
returned `(zero, false, nil)` and every other one has returned
`isDuplicate = false` with the error `redis.Nil`. -/
theorem concurrent_starts {T : Type} (c : Codec T) (db : DB) (k : List Nat) (N : Nat)
    (sched : List Nat) (hN : 1 ≤ N) (h : ¬ db.hasRecord (recordKey k)) :
    (interleave c k sched db (List.replicate N .ready)).2.length = N ∧
    (∀ j, j < N → 2 ≤ sched.count j →
      ∃ r, (interleave c k sched db (List.replicate N .ready)).2[j]? = some (.returned r)) ∧
    ((∀ j, j < N →
        ∃ r, (interleave c k sched db (List.replicate N .ready)).2[j]? = some (.returned r)) →
      ∃ i, i < N ∧
        (interleave c k sched db (List.replicate N .ready)).2[i]? =
          some (.returned (c.zero, false, none)) ∧
        ∀ j, j < N → j ≠ i →
          (interleave c k sched db (List.replicate N .ready)).2[j]? =
            some (.returned (c.zero, false, some .redisNil))) := by
  have hlen : (interleave c k sched db (List.replicate N .ready)).2.length = N := by
    rw [interleave_length, List.length_replicate]
  have hinit : RaceInv c k db (List.replicate N (Phase.ready : Phase T)) := by
    refine ⟨no_record_field db _ h _, ?_, ?_, ?_⟩
    · intro j p hj
      left
      rw [List.getElem?_replicate] at hj
      split_ifs at hj
      cases hj; rfl
    · intro _ j p hj
      rw [List.getElem?_replicate] at hj
      split_ifs at hj
      cases hj; rfl
    · intro hne
      exact absurd (no_record_field db _ h _) hne
  obtain ⟨_, f2, f3, f4⟩ := interleave_inv c k sched db _ hinit
  refine ⟨hlen, ?_, ?_⟩
  · intro j hj hcount
    obtain ⟨q, hq, hr⟩ := interleave_returns c k sched db (List.replicate N .ready) j .ready
      (by rw [List.getElem?_replicate, if_pos hj]) (by simp only [Phase.rank]; omega)
    cases q with
    | ready => simp [Phase.rank] at hr
    | reading => simp [Phase.rank] at hr
    | returned r => exact ⟨r, hq⟩
  · intro hret
    have hstatus : (interleave c k sched db (List.replicate N .ready)).1 (recordKey k)
        statusField ≠ none := by
      intro hnone
      obtain ⟨r, hr⟩ := hret 0 (by omega)
      have := f3 hnone 0 _ hr
      cases this
    obtain ⟨i, hi, hother⟩ := f4 hstatus
    have hiN : i < N := by
      rw [← hlen]
      exact (List.getElem?_eq_some_iff.mp hi).1
    refine ⟨i, hiN, hi, fun j hj hji => ?_⟩
    obtain ⟨r, hr⟩ := hret j hj
    rcases f2 j _ hr with hq | hq | hq | hq
    · cases hq
    · cases hq
    · rw [hq] at hr; exact absurd hr (hother j hji)
    · rw [hq] at hr; exact hr

/-- C3, witness: two callers on the key `K1` of the empty store, the second one
making its first store call between the two of the first; both return, one with
`(zero, false, nil)` and the other with `(zero, false, redis.Nil)`. -/
theorem concurrent_starts_witness :
    ¬ DB.empty.hasRecord (recordKey keyK1) ∧
    (interleave (shippingCodec zeroClock) keyK1 [0, 1, 0, 1] DB.empty
      (List.replicate 2 .ready)).2 =
      [.returned (ShippingOrder.zero zeroClock, false, none),
        .returned (ShippingOrder.zero zeroClock, false, some .redisNil)] ∧
    ∃ i, i < 2 ∧
      (interleave (shippingCodec zeroClock) keyK1 [0, 1, 0, 1] DB.empty
        (List.replicate 2 .ready)).2[i]? =
        some (.returned (ShippingOrder.zero zeroClock, false, none)) ∧
      ∀ j, j < 2 → j ≠ i →
        (interleave (shippingCodec zeroClock) keyK1 [0, 1, 0, 1] DB.empty
          (List.replicate 2 .ready)).2[j]? =
          some (.returned (ShippingOrder.zero zeroClock, false, some .redisNil)) :=
  ⟨empty_no_record _, by decide,
    (concurrent_starts (shippingCodec zeroClock) DB.empty keyK1 2 [0, 1, 0, 1] (by decide)
      (empty_no_record _)).2.2
      (fun j hj => (concurrent_starts (shippingCodec zeroClock) DB.empty keyK1 2 [0, 1, 0, 1]
        (by decide) (empty_no_record _)).2.1 j hj
        (by interval_cases j <;> decide))⟩

/-- C3, counterexample. Two `Start("K1")` on the empty store, without a `Store`:
the first returns `(zero, false, nil)` and the second returns
`(zero, false, redis.Nil)`, so that no call returns `isDuplicate = true`. -/
theorem second_start_is_not_duplicate :
    ¬ DB.empty.hasRecord (recordKey keyK1) ∧
    (Start (shippingCodec zeroClock) DB.empty keyK1 .ok .ok).2 =
      (ShippingOrder.zero zeroClock, false, none) ∧
    (Start (shippingCodec zeroClock)
      (Start (shippingCodec zeroClock) DB.empty keyK1 .ok .ok).1 keyK1 .ok .ok).2 =
      (ShippingOrder.zero zeroClock, false, some .redisNil) ∧
    (interleave (shippingCodec zeroClock) keyK1 [0, 0, 1, 1] DB.empty
      (List.replicate 2 .ready)).2 =
      [.returned (ShippingOrder.zero zeroClock, false, none),
        .returned (ShippingOrder.zero zeroClock, false, some .redisNil)] :=
  ⟨empty_no_record _, by decide, by decide, by decide⟩

/-! ### The claims on the handler -/

/-- C7. For every bound request, let `Start` return `(stored, has, err)`, `Save`
return `(createdOrder, saveErr)` and `Store` return `storeErr`.  The handler
answers `c.JSON(200, stored)` exactly when `has` is true and `err` is nil; it
answers `c.JSON(201, {ok: true, shipping_id: createdOrder.ID})` exactly when
`has` is false and `err`, `saveErr` and `storeErr` are nil; and it returns an
error, and so neither of the two, exactly when `Start` failed, or `Start` reported
fresh and `Save` or `Store` failed. -/
theorem handler_response_shape (tc : TimeCodec) (gorm : Gorm tc.Time) (db db1 db2 : DB)
    (request : PlaceShippingOrderRequest) (n1 n2 n3 : Net)
    (stored createdOrder : ShippingOrder tc.Time) (has : Bool)
    (err saveErr storeErr : Option Error)
    (hstart : Start (shippingCodec tc) db request.OrderID n1 n2 = (db1, (stored, has, err)))
    (hsave : Save gorm (newOrder tc request) = (createdOrder, saveErr))
    (hstore : Store (shippingCodec tc) db1 createdOrder.OrderID createdOrder n3 =
      (db2, storeErr)) :
    ((handler tc gorm db (.ok request) n1 n2 n3).2 = .json 200 (.order stored) ↔
      (has = true ∧ err = none)) ∧
    ((handler tc gorm db (.ok request) n1 n2 n3).2 =
        .json 201 (.created true createdOrder.Model.ID) ↔
      (has = false ∧ err = none ∧ saveErr = none ∧ storeErr = none)) ∧
    ((∃ e, (handler tc gorm db (.ok request) n1 n2 n3).2 = .error e) ↔
      (err ≠ none ∨ (has = false ∧ (saveErr ≠ none ∨ storeErr ≠ none)))) ∧
    (∀ code body, (handler tc gorm db (.ok request) n1 n2 n3).2 = .json code body →
      (code = 200 ∧ body = .order stored) ∨
      (code = 201 ∧ body = .created true createdOrder.Model.ID)) := by
  cases err with
  | some e => simp [handler, hstart]
  | none =>
    cases has with
    | true => simp [handler, hstart]
    | false =>
      cases storeErr with
      | some e1 => simp [handler, hstart, hsave, hstore]
      | none =>
        cases saveErr with
        | some e2 => simp [handler, hstart, hsave, hstore]
        | none => simp [handler, hstart, hsave, hstore]

/-- C7, witness: the request with order_id `K1`, vendor `V`, address `A` on the
empty store is answered with 201 and the ID that gorm assigned. -/
theorem handler_response_shape_witness :
    (handler zeroClock gormOk DB.empty (.ok requestA) .ok .ok .ok).2 =
      .json 201 (.created true 1) :=
  (handler_response_shape zeroClock gormOk DB.empty
    (Start (shippingCodec zeroClock) DB.empty keyK1 .ok .ok).1
    (Store (shippingCodec zeroClock) (Start (shippingCodec zeroClock) DB.empty keyK1 .ok .ok).1
      keyK1 orderA .ok).1
    requestA .ok .ok .ok (ShippingOrder.zero zeroClock) orderA false none none none
    rfl rfl rfl).2.1.mpr ⟨rfl, rfl, rfl, rfl⟩

/-- Every request that `c.Bind` filled gives `Save` an order that JSON represents,
and so does what a `Save` that only assigns the ID and the time stamps returns. -/
theorem saved_order_representable (tc : TimeCodec) (request : PlaceShippingOrderRequest)
    (created : ShippingOrder tc.Time) (hb : Bound request = true)
    (hs : SaveAssigned tc (newOrder tc request) created = true) :
    created.OrderID = request.OrderID ∧ JSONRepresentable tc created = true := by
  simp only [Bound, Bool.and_eq_true] at hb
  simp only [SaveAssigned, Bool.and_eq_true, decide_eq_true_eq] at hs
  obtain ⟨⟨ho, hv⟩, ha⟩ := hb
  obtain ⟨⟨⟨⟨⟨⟨so, sv⟩, sa⟩, sd⟩, sid⟩, sc⟩, su⟩ := hs
  refine ⟨so, ?_⟩
  have hd : created.Model.DeletedAt = { Time := tc.zero, Valid := false } := sd
  simp only [JSONRepresentable, Bool.and_eq_true, decide_eq_true_eq]
  refine ⟨⟨⟨⟨⟨⟨sid, sc⟩, su⟩, ?_⟩, ?_⟩, ?_⟩, ?_⟩
  · rw [hd]; simp
  · rw [so]; exact ho
  · rw [sv]; exact hv
  · rw [sa]; exact ha

/-- C10. For every request for which `Start` reports fresh, the handler calls
`Store` with the order that `Save` returned, under the `OrderID` of that order,
whether `Save` failed or not.  If `Save` failed and `Store` succeeded, the handler
returns the error of `Save` while the record holds the bytes of that order, so
that a later request with the same key, its store calls succeeding, takes the
duplicate path and is answered with 200 and that order, which was never saved:
this for every request that `c.Bind` filled and a `Save` that, as gorm does,
assigns only the ID and the time stamps; and whatever `Save` did to the fields
other than `OrderID`, the later request is answered with 200 and what
`json.Unmarshal` reads from these bytes.  If both `Save` and `Store` failed, the
handler returns the error of `Store`, not that of `Save`. -/
theorem publish_despite_failed_save (tc : TimeCodec) (gorm : Gorm tc.Time) (db db1 : DB)
    (request : PlaceShippingOrderRequest) (n1 n2 n3 : Net)
    (stored createdOrder : ShippingOrder tc.Time) (saveErr : Option Error)
    (hstart : Start (shippingCodec tc) db request.OrderID n1 n2 = (db1, (stored, false, none)))
    (hsave : Save gorm (newOrder tc request) = (createdOrder, saveErr)) :
    (handler tc gorm db (.ok request) n1 n2 n3).1 =
      (Store (shippingCodec tc) db1 createdOrder.OrderID createdOrder n3).1 ∧
    (∀ e, saveErr = some e →
      (Store (shippingCodec tc) db1 createdOrder.OrderID createdOrder n3).2 = none →
      (handler tc gorm db (.ok request) n1 n2 n3).2 = .error e ∧
      ∃ b, jsonMarshal tc createdOrder = .ok b ∧
        (handler tc gorm db (.ok request) n1 n2 n3).1 (recordKey createdOrder.OrderID)
          valueField = some b ∧
        ∀ (later : PlaceShippingOrderRequest) (gorm2 : Gorm tc.Time) (m3 : Net),
          later.OrderID = request.OrderID →
          (Bound request = true → SaveAssigned tc (newOrder tc request) createdOrder = true →
            handler tc gorm2 (handler tc gorm db (.ok request) n1 n2 n3).1 (.ok later)
              .ok .ok m3 =
              ((handler tc gorm db (.ok request) n1 n2 n3).1,
                .json 200 (.order createdOrder))) ∧
          (∀ o, createdOrder.OrderID = request.OrderID → jsonUnmarshal tc b = (o, none) →
            handler tc gorm2 (handler tc gorm db (.ok request) n1 n2 n3).1 (.ok later)
              .ok .ok m3 =
              ((handler tc gorm db (.ok request) n1 n2 n3).1, .json 200 (.order o)))) ∧
    (∀ e e1, saveErr = some e →
      (Store (shippingCodec tc) db1 createdOrder.OrderID createdOrder n3).2 = some e1 →
      (handler tc gorm db (.ok request) n1 n2 n3).2 = .error e1) := by
  have hdb : (handler tc gorm db (.ok request) n1 n2 n3).1 =
      (Store (shippingCodec tc) db1 createdOrder.OrderID createdOrder n3).1 := by
    simp only [handler, hstart, hsave]
    rcases Store (shippingCodec tc) db1 createdOrder.OrderID createdOrder n3 with ⟨db2, _ | e1⟩
    · cases saveErr <;> rfl
    · rfl
  refine ⟨hdb, ?_, ?_⟩
  · intro e he hst
    subst he
    constructor
    · simp only [handler, hstart, hsave]
      rcases hs : Store (shippingCodec tc) db1 createdOrder.OrderID createdOrder n3 with
        ⟨db2, _ | e1⟩
      · rfl
      · rw [hs] at hst; simp at hst
    · have hstatus : db1 (recordKey request.OrderID) statusField ≠ none := by
        have := Start_fresh_sets (shippingCodec tc) db request.OrderID n1 n2 (by simp [hstart])
        rwa [hstart] at this
      rw [hdb]
      rcases hm : jsonMarshal tc createdOrder with e2 | b
      · have hm1 : (shippingCodec tc).marshal createdOrder = .error e2 := hm
        simp [Store, hm1] at hst
      · have hm1 : (shippingCodec tc).marshal createdOrder = .ok b := hm
        have hn3 : n3 = .ok := by
          cases n3 <;> simp [Store, hm1, HSet] at hst ⊢
        subst hn3
        rw [Store_ok _ db1 _ createdOrder b hm1]
        refine ⟨b, rfl, hset_same _ _ _ _, ?_⟩
        intro later gorm2 m3 hlater
        have hread : ∀ o, createdOrder.OrderID = request.OrderID →
            (shippingCodec tc).unmarshal b = (o, none) →
            handler tc gorm2 (db1.hset (recordKey createdOrder.OrderID) valueField b)
              (.ok later) .ok .ok m3 =
              (db1.hset (recordKey createdOrder.OrderID) valueField b,
                .json 200 (.order o)) := by
          intro o hkey hu
          have hr := Start_reads (shippingCodec tc)
            (db1.hset (recordKey createdOrder.OrderID) valueField b) later.OrderID b o
            (by rw [hlater]; simpa [DB.hset, statusField_ne_valueField] using hstatus)
            (by rw [hlater, ← hkey]; exact hset_same _ _ _ _) hu
          simp [handler, hr]
        refine ⟨fun hb hs => ?_, fun o hkey ho => hread o hkey ho⟩
        obtain ⟨hkey, hrep⟩ := saved_order_representable tc request createdOrder hb hs
        refine hread createdOrder hkey ?_
        obtain ⟨b1, hb1, hd⟩ := jsonDecode_jsonMarshal tc createdOrder hrep
        rw [hm] at hb1
        cases hb1
        simp [shippingCodec, jsonUnmarshal, hd]
  · intro e e1 he hst
    subst he
    simp only [handler, hstart, hsave]
    rcases hs : Store (shippingCodec tc) db1 createdOrder.OrderID createdOrder n3 with
      ⟨db2, _ | e2⟩
    · rw [hs] at hst; simp at hst
    · rw [hs] at hst
      simp only [Option.some.injEq] at hst
      subst hst
      rfl

/-- C10, witness: gorm is down for the request with order_id `K1`, vendor `V`,
address `A` on the empty store; the handler returns the error of `Save`, and the
same request again is answered with 200 and the order that was never saved. -/
theorem publish_despite_failed_save_witness :
    Bound requestA = true ∧
    Save gormDown (newOrder zeroClock requestA) =
      (newOrder zeroClock requestA, some (.gorm 1)) ∧
    (handler zeroClock gormDown DB.empty (.ok requestA) .ok .ok .ok).2 = .error (.gorm 1) ∧
    (handler zeroClock gormDown
      (handler zeroClock gormDown DB.empty (.ok requestA) .ok .ok .ok).1
      (.ok requestA) .ok .ok .ok).2 = .json 200 (.order (newOrder zeroClock requestA)) := by
  have h := publish_despite_failed_save zeroClock gormDown DB.empty
    (Start (shippingCodec zeroClock) DB.empty keyK1 .ok .ok).1 requestA .ok .ok .ok
    (ShippingOrder.zero zeroClock) (newOrder zeroClock requestA) (some (.gorm 1))
    rfl rfl
  obtain ⟨h1, b, _, _, h2⟩ := h.2.1 (.gorm 1) rfl (by decide)
  refine ⟨by decide, rfl, h1, ?_⟩
  rw [(h2 requestA gormDown .ok rfl).1 (by decide) (by decide)]

end DuplicateRequests
